import Mathlib

/-!
Verification of the temporal-resolution, calendar-encoding and
duplicate-suppression pipeline of the whatsapp-me repository.

Strings are modelled as lists of Unicode code points (`Str := List Nat`).
-/

abbrev Str := List Nat

/-- Code points of a Lean string literal, used to write concrete inputs. -/
def str (s : String) : Str := s.toList.map Char.toNat

/-- Whitespace class of the JavaScript regex `\s` (ASCII part plus the
Unicode space characters). -/
def isWsChar (c : Nat) : Bool :=
  c == 32 || c == 9 || c == 10 || c == 11 || c == 12 || c == 13 ||
  c == 160 || c == 5760 || (8192 ≤ c && c ≤ 8202) || c == 8232 ||
  c == 8233 || c == 8239 || c == 8287 || c == 12288 || c == 65279

/-- The punctuation class `[.,!?;:]` removed by `normalizeText`. -/
def isPunctChar (c : Nat) : Bool :=
  c == 46 || c == 44 || c == 33 || c == 63 || c == 59 || c == 58

/-- The quote class `["']` removed by `normalizeText`. -/
def isQuoteChar (c : Nat) : Bool :=
  c == 34 || c == 39

/-- ASCII lowercasing, modelling `String.prototype.toLowerCase` on the
character sets this code base deals with (Hebrew letters are fixed points). -/
def lowerChar (c : Nat) : Nat :=
  if 65 ≤ c ∧ c ≤ 90 then c + 32 else c

def lowerStr (s : Str) : Str := s.map lowerChar

/-- Remove trailing whitespace (the right half of `String.prototype.trim`). -/
def dropTrailWs : Str → Str
  | [] => []
  | c :: cs =>
    match dropTrailWs cs with
    | [] => if isWsChar c then [] else [c]
    | r => c :: r

/-- `String.prototype.trim`: strip leading and trailing whitespace. -/
def trimJs (s : Str) : Str := dropTrailWs (s.dropWhile isWsChar)

/-- Worker for `collapseWs`; the flag records whether the previous character
was whitespace (whose run has already emitted its single space). -/
def collapseGo : Bool → Str → Str
  | _, [] => []
  | inWs, c :: cs =>
    if isWsChar c then
      if inWs then collapseGo true cs else 32 :: collapseGo true cs
    else c :: collapseGo false cs

/-- `replace(/\s+/g, " ")`: collapse every maximal whitespace run to one
single space. -/
def collapseWs (s : Str) : Str := collapseGo false s

def stripPunct (s : Str) : Str := s.filter (fun c => !(isPunctChar c))

def stripQuotes (s : Str) : Str := s.filter (fun c => !(isQuoteChar c))

/-- `EventDeduplicationService.normalizeText`: lowercase, trim, collapse
whitespace runs, strip punctuation, strip quotes.  `null` and the empty
string (both falsy in JS) give the empty result. -/
def normalizeText (t : Option Str) : Str :=
  match t with
  | none => []
  | some s =>
    if s = [] then []
    else stripQuotes (stripPunct (collapseWs (trimJs (lowerStr s))))

example : normalizeText (some (str ("a ."))) = str ("a ") := by decide

example : normalizeText (some (str ("  Hello,  World! "))) = str ("hello world") := by decide

example :
    normalizeText (some (normalizeText (some (str ("a ."))))) = str ("a") := by decide

/-! ### Lemmas about whitespace collapsing, trimming and lowercasing -/

theorem collapseGo_true_eq (cs : Str) :
    collapseGo true cs = collapseGo false (cs.dropWhile isWsChar) := by
  induction cs with
  | nil => rfl
  | cons c cs ih =>
    by_cases h : isWsChar c = true <;>
      simp [collapseGo, List.dropWhile_cons, h, ih]

theorem collapseGo_false_ne_nil (c : Nat) (cs : Str) :
    collapseGo false (c :: cs) ≠ [] := by
  by_cases h : isWsChar c = true <;> simp [collapseGo, h]

theorem mem_collapseGo (b : Bool) (cs : Str) (x : Nat)
    (hx : x ∈ collapseGo b cs) : x = 32 ∨ x ∈ cs := by
  induction cs generalizing b with
  | nil => simp [collapseGo] at hx
  | cons c cs ih =>
    by_cases h : isWsChar c = true <;>
      cases b <;> simp only [collapseGo, h, if_true, if_false, ite_true,
        ite_false, Bool.false_eq_true, List.mem_cons] at hx
    · rcases hx with rfl | hx
      · exact Or.inl rfl
      · rcases ih true hx with h' | h'
        · exact Or.inl h'
        · exact Or.inr (List.mem_cons_of_mem _ h')
    · rcases ih true hx with h' | h'
      · exact Or.inl h'
      · exact Or.inr (List.mem_cons_of_mem _ h')
    · rcases hx with rfl | hx
      · exact Or.inr (List.mem_cons_self _ _)
      · rcases ih false hx with h' | h'
        · exact Or.inl h'
        · exact Or.inr (List.mem_cons_of_mem _ h')
    · rcases hx with rfl | hx
      · exact Or.inr (List.mem_cons_self _ _)
      · rcases ih false hx with h' | h'
        · exact Or.inl h'
        · exact Or.inr (List.mem_cons_of_mem _ h')

theorem head_dropWhileWs (l : Str) :
    ∀ x ∈ (l.dropWhile isWsChar).head?, isWsChar x = false := by
  induction l with
  | nil => intro x hx; simp at hx
  | cons c cs ih =>
    intro x hx
    by_cases h : isWsChar c = true
    · rw [List.dropWhile_cons_of_pos h] at hx
      exact ih x hx
    · rw [List.dropWhile_cons_of_neg (by simp [h])] at hx
      simp only [List.head?_cons, Option.mem_def, Option.some.injEq] at hx
      subst hx
      simpa using h

theorem dropWhileWs_idem (l : Str) :
    (l.dropWhile isWsChar).dropWhile isWsChar = l.dropWhile isWsChar := by
  rcases hd : l.dropWhile isWsChar with _ | ⟨d, ds⟩
  · rfl
  · have : isWsChar d = false := by
      have := head_dropWhileWs l
      rw [hd] at this
      exact this d rfl
    rw [List.dropWhile_cons_of_neg (by simp [this])]

theorem dropWhile_collapseGo (l : Str) :
    (collapseGo false l).dropWhile isWsChar =
      collapseGo false (l.dropWhile isWsChar) := by
  induction l with
  | nil => rfl
  | cons c cs _ =>
    by_cases h : isWsChar c = true
    · have e1 : collapseGo false (c :: cs) = 32 :: collapseGo true cs := by
        simp [collapseGo, h]
      rw [e1, List.dropWhile_cons_of_pos (show isWsChar 32 = true by decide),
        List.dropWhile_cons_of_pos h, collapseGo_true_eq]
      rcases hd : cs.dropWhile isWsChar with _ | ⟨d, ds⟩
      · rfl
      · have hdns : isWsChar d = false := by
          have := head_dropWhileWs cs
          rw [hd] at this
          exact this d rfl
        have e2 : collapseGo false (d :: ds) = d :: collapseGo false ds := by
          simp [collapseGo, hdns]
        rw [e2, List.dropWhile_cons_of_neg (by simp [hdns])]
    · have e1 : collapseGo false (c :: cs) = c :: collapseGo false cs := by
        simp [collapseGo, h]
      rw [e1, List.dropWhile_cons_of_neg (by simp [h]),
        List.dropWhile_cons_of_neg (by simp [h]), e1]

theorem collapseGo_of_head_not_ws (b : Bool) (l : Str)
    (h : ∀ x ∈ l.head?, isWsChar x = false) :
    collapseGo b l = collapseGo false l := by
  cases l with
  | nil => rfl
  | cons c cs =>
    have hc : isWsChar c = false := h c rfl
    cases b <;> simp [collapseGo, hc]

theorem head_collapseGo_true (cs : Str) :
    ∀ x ∈ (collapseGo true cs).head?, isWsChar x = false := by
  induction cs with
  | nil => intro x hx; simp [collapseGo] at hx
  | cons c cs ih =>
    intro x hx
    by_cases h : isWsChar c = true
    · simp only [collapseGo, h, if_true, ite_true] at hx
      exact ih x hx
    · simp only [collapseGo, h, if_false, Bool.false_eq_true, ite_false,
        List.head?_cons, Option.mem_def, Option.some.injEq] at hx
      subst hx
      simpa using h

theorem collapseGo_idem (l : Str) :
    (collapseGo false (collapseGo false l) = collapseGo false l) ∧
      (collapseGo false (collapseGo true l) = collapseGo true l) := by
  induction l with
  | nil => exact ⟨rfl, rfl⟩
  | cons c cs ih =>
    have key : collapseGo true (collapseGo true cs) = collapseGo true cs := by
      rw [collapseGo_of_head_not_ws _ _ (head_collapseGo_true cs)]
      exact ih.2
    by_cases h : isWsChar c = true
    · constructor
      · simp only [collapseGo, h, if_true, ite_true]
        simp only [collapseGo, show isWsChar 32 = true by decide, if_true,
          ite_true, key]
      · simp only [collapseGo, h, if_true, ite_true]
        exact ih.2
    · refine ⟨?_, ?_⟩ <;> simp [collapseGo, h, ih.1]


theorem dropTrailWs_eq_nil_iff (l : Str) :
    dropTrailWs l = [] ↔ ∀ c ∈ l, isWsChar c = true := by
  induction l with
  | nil => simp [dropTrailWs]
  | cons c cs ih =>
    rcases hr : dropTrailWs cs with _ | ⟨r0, r⟩
    · have hcs : ∀ x ∈ cs, isWsChar x = true := ih.mp hr
      by_cases h : isWsChar c = true
      · simp only [dropTrailWs, hr, h, if_true, ite_true, List.mem_cons, true_iff]
        intro x hx
        rcases hx with rfl | hx
        · exact h
        · exact hcs x hx
      · simp only [dropTrailWs, hr, h, if_false, Bool.false_eq_true, ite_false]
        constructor
        · intro hcon; cases hcon
        · intro hall; exact absurd (hall c (List.mem_cons_self _ _)) h
    · simp only [dropTrailWs, hr]
      constructor
      · intro hcon; cases hcon
      · intro hall
        have : dropTrailWs cs = [] := ih.mpr (fun x hx => hall x (List.mem_cons_of_mem _ hx))
        rw [this] at hr; cases hr

theorem dropTrailWs_cons_of_nil (c : Nat) (cs : Str) (h : dropTrailWs cs = []) :
    dropTrailWs (c :: cs) = if isWsChar c then [] else [c] := by
  simp only [dropTrailWs, h]

theorem dropTrailWs_cons_of_ne (c : Nat) (cs : Str) (y : Nat) (ys : Str)
    (h : dropTrailWs cs = y :: ys) :
    dropTrailWs (c :: cs) = c :: y :: ys := by
  simp only [dropTrailWs, h]

theorem collapseGo_false_cons_ws (c : Nat) (cs : Str) (h : isWsChar c = true) :
    collapseGo false (c :: cs) = 32 :: collapseGo true cs := by
  simp [collapseGo, h]

theorem collapseGo_true_cons_ws (c : Nat) (cs : Str) (h : isWsChar c = true) :
    collapseGo true (c :: cs) = collapseGo true cs := by
  simp [collapseGo, h]

theorem collapseGo_cons_not_ws (b : Bool) (c : Nat) (cs : Str)
    (h : isWsChar c = false) :
    collapseGo b (c :: cs) = c :: collapseGo false cs := by
  cases b <;> simp [collapseGo, h]

theorem dropTrailWs_idem (l : Str) :
    dropTrailWs (dropTrailWs l) = dropTrailWs l := by
  induction l with
  | nil => rfl
  | cons c cs ih =>
    rcases hr : dropTrailWs cs with _ | ⟨r0, r⟩
    · rw [dropTrailWs_cons_of_nil c cs hr]
      by_cases h : isWsChar c = true
      · simp [h, dropTrailWs]
      · simp only [h, if_false, Bool.false_eq_true, ite_false]
        rw [dropTrailWs_cons_of_nil c [] rfl]
        simp [h]
    · rw [hr] at ih
      rw [dropTrailWs_cons_of_ne c cs r0 r hr,
        dropTrailWs_cons_of_ne c (r0 :: r) r0 r ih]

theorem mem_dropTrailWs (l : Str) (x : Nat) (hx : x ∈ dropTrailWs l) : x ∈ l := by
  induction l with
  | nil => simp [dropTrailWs] at hx
  | cons c cs ih =>
    rcases hr : dropTrailWs cs with _ | ⟨r0, r⟩
    · rw [dropTrailWs_cons_of_nil c cs hr] at hx
      by_cases h : isWsChar c = true
      · simp [h] at hx
      · simp only [h, if_false, Bool.false_eq_true, ite_false,
          List.mem_singleton] at hx
        exact hx ▸ List.mem_cons_self _ _
    · rw [dropTrailWs_cons_of_ne c cs r0 r hr] at hx
      rcases List.mem_cons.mp hx with rfl | hx
      · exact List.mem_cons_self _ _
      · exact List.mem_cons_of_mem _ (ih (hr ▸ hx))

theorem mem_dropWhileWs (l : Str) (x : Nat) (hx : x ∈ l.dropWhile isWsChar) :
    x ∈ l := by
  induction l with
  | nil => simp at hx
  | cons c cs ih =>
    by_cases h : isWsChar c = true
    · rw [List.dropWhile_cons_of_pos h] at hx
      exact List.mem_cons_of_mem _ (ih hx)
    · rw [List.dropWhile_cons_of_neg (by simp [h])] at hx
      exact hx

theorem collapseGo_true_eq_nil_iff (cs : Str) :
    collapseGo true cs = [] ↔ ∀ c ∈ cs, isWsChar c = true := by
  rw [collapseGo_true_eq]
  constructor
  · intro h
    rcases hd : cs.dropWhile isWsChar with _ | ⟨d, ds⟩
    · exact List.dropWhile_eq_nil_iff.mp hd
    · rw [hd] at h
      exact absurd h (collapseGo_false_ne_nil d ds)
  · intro hall
    rw [List.dropWhile_eq_nil_iff.mpr hall]
    rfl

theorem dropTrail_collapseGo (m : Str) (b : Bool) :
    dropTrailWs (collapseGo b m) = collapseGo b (dropTrailWs m) := by
  induction m generalizing b with
  | nil => cases b <;> rfl
  | cons c cs ih =>
    by_cases h : isWsChar c = true
    · rcases hr : dropTrailWs cs with _ | ⟨r0, r⟩
      · have hLtrue : dropTrailWs (collapseGo true cs) = [] := by
          rw [ih true, hr]; rfl
        have hRHS : dropTrailWs (c :: cs) = [] := by
          rw [dropTrailWs_cons_of_nil c cs hr]; simp [h]
        cases b
        · rw [collapseGo_false_cons_ws c cs h,
            dropTrailWs_cons_of_nil 32 _ hLtrue, hRHS]
          simp [collapseGo, show isWsChar 32 = true from by decide]
        · rw [collapseGo_true_cons_ws c cs h, hLtrue, hRHS]
          rfl
      · have hrne : dropTrailWs cs ≠ [] := by rw [hr]; intro hc; cases hc
        have hne : collapseGo true (dropTrailWs cs) ≠ [] := by
          intro hc
          have hall : ∀ x ∈ dropTrailWs cs, isWsChar x = true :=
            (collapseGo_true_eq_nil_iff _).mp hc
          have hnil : dropTrailWs (dropTrailWs cs) = [] :=
            (dropTrailWs_eq_nil_iff _).mpr hall
          rw [dropTrailWs_idem] at hnil
          exact hrne hnil
        have hstep : dropTrailWs (collapseGo true cs) =
            collapseGo true (dropTrailWs cs) := ih true
        have hRHS : dropTrailWs (c :: cs) = c :: r0 :: r :=
          dropTrailWs_cons_of_ne c cs r0 r hr
        rcases hsc : collapseGo true (dropTrailWs cs) with _ | ⟨y, ys⟩
        · exact absurd hsc hne
        · cases b
          · rw [collapseGo_false_cons_ws c cs h, hRHS,
              collapseGo_false_cons_ws c (r0 :: r) h,
              dropTrailWs_cons_of_ne 32 _ y ys (hstep.trans hsc), ← hsc, ← hr]
          · rw [collapseGo_true_cons_ws c cs h, hRHS,
              collapseGo_true_cons_ws c (r0 :: r) h, hstep, hr]
    · have hF : isWsChar c = false := by
        cases hcb : isWsChar c
        · rfl
        · exact absurd hcb h
      rcases hr : dropTrailWs cs with _ | ⟨r0, r⟩
      · have hnil : dropTrailWs (collapseGo false cs) = [] := by
          rw [ih false, hr]; rfl
        have hRHS : dropTrailWs (c :: cs) = [c] := by
          rw [dropTrailWs_cons_of_nil c cs hr]; simp [hF]
        rw [collapseGo_cons_not_ws b c cs hF,
          dropTrailWs_cons_of_nil c _ hnil, hRHS,
          collapseGo_cons_not_ws b c [] hF]
        simp [hF, collapseGo]
      · have hsc : dropTrailWs (collapseGo false cs) = collapseGo false (r0 :: r) := by
          rw [ih false, hr]
        rcases hcc : collapseGo false (r0 :: r) with _ | ⟨y, ys⟩
        · exact absurd hcc (collapseGo_false_ne_nil r0 r)
        · rw [collapseGo_cons_not_ws b c cs hF,
            dropTrailWs_cons_of_ne c _ y ys (hsc.trans hcc),
            dropTrailWs_cons_of_ne c cs r0 r hr,
            collapseGo_cons_not_ws b c (r0 :: r) hF, ← hcc]

theorem dropWhile_dropTrail_comm (m : Str) :
    (dropTrailWs m).dropWhile isWsChar = dropTrailWs (m.dropWhile isWsChar) := by
  induction m with
  | nil => rfl
  | cons c cs ih =>
    by_cases h : isWsChar c = true
    · rw [List.dropWhile_cons_of_pos h]
      rcases hr : dropTrailWs cs with _ | ⟨r0, r⟩
      · rw [dropTrailWs_cons_of_nil c cs hr]
        simp only [h, if_true, ite_true]
        rw [← ih, hr]
      · rw [dropTrailWs_cons_of_ne c cs r0 r hr]
        rw [List.dropWhile_cons_of_pos h]
        rw [← hr]
        exact ih
    · rw [List.dropWhile_cons_of_neg (by simp [h])]
      rcases hr : dropTrailWs cs with _ | ⟨r0, r⟩
      · rw [dropTrailWs_cons_of_nil c cs hr]
        by_cases hc : isWsChar c = true
        · exact absurd hc h
        · simp only [hc, if_false, Bool.false_eq_true, ite_false]
          rw [List.dropWhile_cons_of_neg (by simp [hc])]
      · rw [dropTrailWs_cons_of_ne c cs r0 r hr]
        exact List.dropWhile_cons_of_neg (by simp [h])

theorem trimJs_collapseWs (u : Str) :
    trimJs (collapseWs u) = collapseWs (trimJs u) := by
  unfold trimJs collapseWs
  rw [dropWhile_collapseGo, dropTrail_collapseGo]

theorem collapseWs_idem (l : Str) : collapseWs (collapseWs l) = collapseWs l :=
  (collapseGo_idem l).1

theorem trimJs_idem (l : Str) : trimJs (trimJs l) = trimJs l := by
  unfold trimJs
  rw [dropWhile_dropTrail_comm, dropWhileWs_idem, dropTrailWs_idem]

theorem isWsChar_iff (c : Nat) :
    isWsChar c = true ↔ (c = 32 ∨ c = 9 ∨ c = 10 ∨ c = 11 ∨ c = 12 ∨ c = 13 ∨
      c = 160 ∨ c = 5760 ∨ (8192 ≤ c ∧ c ≤ 8202) ∨ c = 8232 ∨ c = 8233 ∨
      c = 8239 ∨ c = 8287 ∨ c = 12288 ∨ c = 65279) := by
  simp [isWsChar, Bool.or_eq_true, beq_iff_eq, Bool.and_eq_true,
    decide_eq_true_eq, or_assoc]

theorem isPunctChar_iff (c : Nat) :
    isPunctChar c = true ↔ (c = 46 ∨ c = 44 ∨ c = 33 ∨ c = 63 ∨ c = 59 ∨ c = 58) := by
  simp [isPunctChar, Bool.or_eq_true, beq_iff_eq, or_assoc]

theorem isQuoteChar_iff (c : Nat) :
    isQuoteChar c = true ↔ (c = 34 ∨ c = 39) := by
  simp [isQuoteChar, Bool.or_eq_true, beq_iff_eq]

theorem lowerChar_idem (c : Nat) : lowerChar (lowerChar c) = lowerChar c := by
  unfold lowerChar
  split
  · split
    · omega
    · rfl
  · rfl

theorem isPunctChar_lowerChar (c : Nat) :
    isPunctChar (lowerChar c) = isPunctChar c := by
  unfold lowerChar
  split
  · rename_i hc
    have h1 : isPunctChar (c + 32) = false := by
      cases hb : isPunctChar (c + 32)
      · rfl
      · rw [isPunctChar_iff] at hb; omega
    have h2 : isPunctChar c = false := by
      cases hb : isPunctChar c
      · rfl
      · rw [isPunctChar_iff] at hb; omega
    rw [h1, h2]
  · rfl

theorem isQuoteChar_lowerChar (c : Nat) :
    isQuoteChar (lowerChar c) = isQuoteChar c := by
  unfold lowerChar
  split
  · rename_i hc
    have h1 : isQuoteChar (c + 32) = false := by
      cases hb : isQuoteChar (c + 32)
      · rfl
      · rw [isQuoteChar_iff] at hb; omega
    have h2 : isQuoteChar c = false := by
      cases hb : isQuoteChar c
      · rfl
      · rw [isQuoteChar_iff] at hb; omega
    rw [h1, h2]
  · rfl

/-- The characters of `collapseWs (trimJs (lowerStr s))` are either the
single space or lowercase images of characters of `s`. -/
theorem mem_core_shape (s : Str) (x : Nat)
    (hx : x ∈ collapseWs (trimJs (lowerStr s))) :
    x = 32 ∨ ∃ c ∈ s, x = lowerChar c := by
  rcases mem_collapseGo false _ x hx with h | h
  · exact Or.inl h
  · have h1 : x ∈ lowerStr s :=
      mem_dropWhileWs _ _ (mem_dropTrailWs _ _ h)
    rcases List.mem_map.mp h1 with ⟨c, hc, rfl⟩
    exact Or.inr ⟨c, hc, rfl⟩

/-- A string is free of the stripped punctuation and quote characters. -/
def pqFree (s : Str) : Prop :=
  ∀ c ∈ s, isPunctChar c = false ∧ isQuoteChar c = false

theorem norm_eq_of_pqFree (s : Str) (h : pqFree s) :
    normalizeText (some s) = collapseWs (trimJs (lowerStr s)) := by
  unfold normalizeText
  by_cases hs : s = []
  · subst hs
    rfl
  · simp only [hs, if_false, ite_false]
    have hall : ∀ x ∈ collapseWs (trimJs (lowerStr s)),
        isPunctChar x = false ∧ isQuoteChar x = false := by
      intro x hx
      rcases mem_core_shape s x hx with rfl | ⟨c, hc, rfl⟩
      · exact ⟨by decide, by decide⟩
      · rw [isPunctChar_lowerChar, isQuoteChar_lowerChar]
        exact h c hc
    have h1 : stripPunct (collapseWs (trimJs (lowerStr s))) =
        collapseWs (trimJs (lowerStr s)) :=
      List.filter_eq_self.mpr (fun a ha => by simp [(hall a ha).1])
    have h2 : stripQuotes (collapseWs (trimJs (lowerStr s))) =
        collapseWs (trimJs (lowerStr s)) :=
      List.filter_eq_self.mpr (fun a ha => by simp [(hall a ha).2])
    rw [h1, h2]

theorem pqFree_normalizeText (t : Option Str) : pqFree (normalizeText t) := by
  unfold normalizeText
  rcases t with _ | s
  · intro c hc; cases hc
  · by_cases hs : s = []
    · simp only [hs, if_true, ite_true]
      intro c hc; cases hc
    · simp only [hs, if_false, ite_false]
      intro c hc
      unfold stripQuotes at hc
      have h1 := List.of_mem_filter hc
      have h2 : c ∈ stripPunct (collapseWs (trimJs (lowerStr s))) :=
        List.mem_of_mem_filter hc
      have h3 := List.of_mem_filter h2
      constructor
      · simpa using h3
      · simpa using h1

theorem lowerStr_fixed (s : Str) (h : ∀ c ∈ s, lowerChar c = c) :
    lowerStr s = s := by
  unfold lowerStr
  calc s.map lowerChar = s.map id := List.map_congr_left h
    _ = s := List.map_id s

/-- Canonicalization reaches a fixed point of itself after one application
to a punctuation-free string. -/
theorem norm_fix_of_pqFree (s : Str) (h : pqFree s) :
    normalizeText (some (normalizeText (some s))) = normalizeText (some s) := by
  rw [norm_eq_of_pqFree s h]
  set w := trimJs (lowerStr s) with hw
  have hpq : pqFree (collapseWs w) := by
    rw [← norm_eq_of_pqFree s h]
    exact pqFree_normalizeText (some s)
  rw [norm_eq_of_pqFree _ hpq]
  have hL : lowerStr (collapseWs w) = collapseWs w := by
    apply lowerStr_fixed
    intro c hc
    rcases mem_core_shape s c (hw ▸ hc) with rfl | ⟨c0, _, rfl⟩
    · rfl
    · exact lowerChar_idem c0
  rw [hL]
  have hT : trimJs (collapseWs w) = collapseWs w := by
    rw [trimJs_collapseWs, hw, trimJs_idem]
  rw [hT, collapseWs_idem]

/-- The case/whitespace core of a string: lowercase it, collapse whitespace
runs, trim.  Two strings differing only in letter case, surrounding
whitespace, or the lengths/characters of internal whitespace runs have the
same core. -/
def coreForm (s : Str) : Str := trimJs (collapseWs (lowerStr s))

theorem norm_eq_core (s : Str) :
    normalizeText (some s) = stripQuotes (stripPunct (coreForm s)) := by
  unfold normalizeText coreForm
  by_cases hs : s = []
  · subst hs
    rfl
  · simp only [hs, if_false, ite_false]
    rw [trimJs_collapseWs]

/-! ### SHA-256, JSON serialization and UTF-8 (the fingerprint pipeline) -/

/-- Lowercase hexadecimal digit character for a value below 16. -/
def hexDigit (n : Nat) : Nat := if n < 10 then 48 + n else 87 + n

/-- Escaping of one character inside a JSON string literal, per
`JSON.stringify`. -/
def jsonEscapeChar (c : Nat) : Str :=
  if c = 34 then [92, 34]
  else if c = 92 then [92, 92]
  else if c = 8 then [92, 98]
  else if c = 12 then [92, 102]
  else if c = 10 then [92, 110]
  else if c = 13 then [92, 114]
  else if c = 9 then [92, 116]
  else if c < 32 then [92, 117, 48, 48, hexDigit (c / 16), hexDigit (c % 16)]
  else [c]

/-- A JSON string literal: quote, escape, quote. -/
def jsonQuote (s : Str) : Str := 34 :: (s.map jsonEscapeChar).flatten ++ [34]

/-- The event identity fields hashed by the deduplication service
(`EventHashData` in `event-deduplication.ts`). -/
structure EventHashData where
  title : Option Str
  date : Option Str
  time : Option Str
  location : Option Str

/-- `JSON.stringify(normalizedData)` for the four normalized identity
fields, in the object's insertion order. -/
def hashSource (d : EventHashData) : Str :=
  [123] ++ jsonQuote (str ("title")) ++ [58] ++ jsonQuote (normalizeText d.title)
    ++ [44] ++ jsonQuote (str ("date")) ++ [58] ++ jsonQuote (normalizeText d.date)
    ++ [44] ++ jsonQuote (str ("time")) ++ [58] ++ jsonQuote (normalizeText d.time)
    ++ [44] ++ jsonQuote (str ("location")) ++ [58]
    ++ jsonQuote (normalizeText d.location) ++ [125]

/-- UTF-8 bytes of one code point. -/
def utf8Char (c : Nat) : Str :=
  if c < 128 then [c]
  else if c < 2048 then [192 + c / 64, 128 + c % 64]
  else if c < 65536 then [224 + c / 4096, 128 + (c / 64) % 64, 128 + c % 64]
  else [240 + c / 262144, 128 + (c / 4096) % 64, 128 + (c / 64) % 64, 128 + c % 64]

def utf8Encode (s : Str) : Str := (s.map utf8Char).flatten

/-! SHA-256 over a list of bytes, following FIPS 180-4; 32-bit words are
naturals reduced mod 2^32. -/

def w32 (x : Nat) : Nat := x % 4294967296

def not32 (x : Nat) : Nat := 4294967295 ^^^ x

def rotr32 (n x : Nat) : Nat := (x >>> n) ||| w32 (x <<< (32 - n))

def bsig0 (x : Nat) : Nat := rotr32 2 x ^^^ rotr32 13 x ^^^ rotr32 22 x

def bsig1 (x : Nat) : Nat := rotr32 6 x ^^^ rotr32 11 x ^^^ rotr32 25 x

def ssig0 (x : Nat) : Nat := rotr32 7 x ^^^ rotr32 18 x ^^^ (x >>> 3)

def ssig1 (x : Nat) : Nat := rotr32 17 x ^^^ rotr32 19 x ^^^ (x >>> 10)

def chFn (e f g : Nat) : Nat := (e &&& f) ^^^ (not32 e &&& g)

def majFn (a b c : Nat) : Nat := (a &&& b) ^^^ (a &&& c) ^^^ (b &&& c)

def K256 : List Nat :=
  [1116352408, 1899447441, 3049323471, 3921009573, 961987163,
   1508970993, 2453635748, 2870763221, 3624381080, 310598401,
   607225278, 1426881987, 1925078388, 2162078206, 2614888103,
   3248222580, 3835390401, 4022224774, 264347078, 604807628,
   770255983, 1249150122, 1555081692, 1996064986, 2554220882,
   2821834349, 2952996808, 3210313671, 3336571891, 3584528711,
   113926993, 338241895, 666307205, 773529912, 1294757372,
   1396182291, 1695183700, 1986661051, 2177026350, 2456956037,
   2730485921, 2820302411, 3259730800, 3345764771, 3516065817,
   3600352804, 4094571909, 275423344, 430227734, 506948616,
   659060556, 883997877, 958139571, 1322822218, 1537002063,
   1747873779, 1955562222, 2024104815, 2227730452, 2361852424,
   2428436474, 2756734187, 3204031479, 3329325298]

structure Sha256State where
  a : Nat
  b : Nat
  c : Nat
  d : Nat
  e : Nat
  f : Nat
  g : Nat
  hh : Nat

def sha256Init : Sha256State :=
  ⟨1779033703, 3144134277, 1013904242, 2773480762,
   1359893119, 2600822924, 528734635, 1541459225⟩

/-- The 64-word message schedule expanded from a 16-word block. -/
def sha256Schedule (block : List Nat) : List Nat :=
  (List.range 48).foldl
    (fun w i =>
      w ++ [w32 (ssig1 (w.getD (i + 14) 0) + w.getD (i + 9) 0 +
        ssig0 (w.getD (i + 1) 0) + w.getD i 0)])
    block

def sha256Round (s : Sha256State) (kw : Nat × Nat) : Sha256State :=
  let t1 := w32 (s.hh + bsig1 s.e + chFn s.e s.f s.g + kw.1 + kw.2)
  let t2 := w32 (bsig0 s.a + majFn s.a s.b s.c)
  ⟨w32 (t1 + t2), s.a, s.b, s.c, w32 (s.d + t1), s.e, s.f, s.g⟩

def sha256Compress (st : Sha256State) (block : List Nat) : Sha256State :=
  let ws := sha256Schedule block
  let r := (K256.zip ws).foldl sha256Round st
  ⟨w32 (r.a + st.a), w32 (r.b + st.b), w32 (r.c + st.c), w32 (r.d + st.d),
   w32 (r.e + st.e), w32 (r.f + st.f), w32 (r.g + st.g), w32 (r.hh + st.hh)⟩

/-- Big-endian packing of bytes into 32-bit words. -/
def bytesToWords : List Nat → List Nat
  | b0 :: b1 :: b2 :: b3 :: rest =>
    (b0 * 16777216 + b1 * 65536 + b2 * 256 + b3) :: bytesToWords rest
  | _ => []

/-- The message length in bits as 8 big-endian bytes. -/
def lenBytes64 (n : Nat) : Str :=
  [(n >>> 56) % 256, (n >>> 48) % 256, (n >>> 40) % 256, (n >>> 32) % 256,
   (n >>> 24) % 256, (n >>> 16) % 256, (n >>> 8) % 256, n % 256]

/-- Merkle-Damgard padding: a 0x80 byte, zeros, then the 64-bit length. -/
def sha256Pad (msg : Str) : Str :=
  let L := msg.length
  let k := (64 + 56 - ((L + 1) % 64)) % 64
  msg ++ 128 :: List.replicate k 0 ++ lenBytes64 (8 * L)

/-- Split a word list into 16-word blocks; the fuel is the block count. -/
def wordBlocks : Nat → List Nat → List (List Nat)
  | 0, _ => []
  | n + 1, ws => ws.take 16 :: wordBlocks n (ws.drop 16)

def sha256 (msg : Str) : Sha256State :=
  let ws := bytesToWords (sha256Pad msg)
  (wordBlocks (ws.length / 16) ws).foldl sha256Compress sha256Init

def word32Hex (x : Nat) : Str :=
  [hexDigit (x / 268435456 % 16), hexDigit (x / 16777216 % 16),
   hexDigit (x / 1048576 % 16), hexDigit (x / 65536 % 16),
   hexDigit (x / 4096 % 16), hexDigit (x / 256 % 16),
   hexDigit (x / 16 % 16), hexDigit (x % 16)]

/-- `crypto.createHash("sha256").update(s).digest("hex")`: the 64-character
lowercase hexadecimal digest of the UTF-8 bytes. -/
def sha256Hex (msg : Str) : Str :=
  let s := sha256 msg
  word32Hex s.a ++ word32Hex s.b ++ word32Hex s.c ++ word32Hex s.d ++
    word32Hex s.e ++ word32Hex s.f ++ word32Hex s.g ++ word32Hex s.hh

/-- `EventDeduplicationService.generateEventHash`: normalize the four
identity fields, serialize them as a JSON object, and hash with SHA-256. -/
def generateEventHash (d : EventHashData) : Str :=
  sha256Hex (utf8Encode (hashSource d))

example : sha256Hex (str ("abc")) =
    str ("ba7816bf8f01cfea414140de5dae2223b00361a396177a9cb410ff61f20015ad") := by
  decide

example : sha256Hex (str ("")) =
    str ("e3b0c44298fc1c149afbf4c8996fb92427ae41e4649b934ca495991b7852b855") := by
  decide

/-! ### The duplicate-suppression cache (`EventDeduplicationService`) -/

/-- The NodeCache backing store: an association list from key to the stored
expiry instant `t` in epoch milliseconds.  NodeCache stores `t = 0` when the
TTL is zero (meaning "never expires") and `t = now + ttl*1000` otherwise,
and treats an entry as live iff `t = 0 ∨ now ≤ t` (`_check` expires an entry
when `t ≠ 0 ∧ t < now`). -/
def Cache := List (Str × Int)

def cacheLookup (c : Cache) (k : Str) : Option Int :=
  match c with
  | [] => none
  | (k', t) :: rest => if k' = k then some t else cacheLookup rest k

/-- `NodeCache.has` at time `now`: an entry exists and has not expired. -/
def cacheHas (c : Cache) (now : Int) (k : Str) : Bool :=
  match cacheLookup c k with
  | none => false
  | some t => t == 0 || now ≤ t

/-- `NodeCache.set` with per-cache TTL `ttlSec` seconds at time `now`. -/
def cacheSet (c : Cache) (now ttlSec : Int) (k : Str) : Cache :=
  (k, if ttlSec = 0 then 0 else now + ttlSec * 1000) ::
    c.filter (fun e => !(e.1 = k : Bool))

/-- `isDuplicateEvent`: hash the identity fields and probe the cache. -/
def isDuplicateEvent (c : Cache) (now : Int) (d : EventHashData) : Bool :=
  cacheHas c now (generateEventHash d)

/-- `markEventAsProcessed`: hash the identity fields and store the hash. -/
def markEventAsProcessed (c : Cache) (now ttlSec : Int) (d : EventHashData) :
    Cache :=
  cacheSet c now ttlSec (generateEventHash d)

/-- `shouldProcessEvent`: returns `false` and leaves the cache unchanged for
a duplicate, otherwise marks the event processed and returns `true`. -/
def shouldProcessEvent (c : Cache) (now ttlSec : Int) (d : EventHashData) :
    Bool × Cache :=
  if isDuplicateEvent c now d then (false, c)
  else (true, markEventAsProcessed c now ttlSec d)

theorem cacheLookup_cacheSet_self (c : Cache) (now ttlSec : Int) (k : Str) :
    cacheLookup (cacheSet c now ttlSec k) k =
      some (if ttlSec = 0 then 0 else now + ttlSec * 1000) := by
  simp [cacheSet, cacheLookup]

/-! ### Constructor configuration (`EVENT_DEDUPLICATION_TTL_HOURS`) -/

def isDigitChar (c : Nat) : Bool := 48 ≤ c && c ≤ 57

def digitsToNat (acc : Nat) : Str → Nat
  | [] => acc
  | c :: cs => if isDigitChar c then digitsToNat (acc * 10 + (c - 48)) cs else acc

def countLeadingDigits : Str → Nat
  | [] => 0
  | c :: cs => if isDigitChar c then countLeadingDigits cs + 1 else 0

/-- `parseInt(s)` (radix unspecified, no hex prefix in scope): skip leading
whitespace, read an optional sign, then a maximal run of decimal digits;
`none` models `NaN`. -/
def parseIntJs (s : Str) : Option Int :=
  let s1 := s.dropWhile isWsChar
  let (neg, s2) : Bool × Str :=
    match s1 with
    | 45 :: rest => (true, rest)
    | 43 :: rest => (false, rest)
    | _ => (false, s1)
  if countLeadingDigits s2 = 0 then none
  else
    let n : Int := Int.ofNat (digitsToNat 0 (s2.take (countLeadingDigits s2)))
    some (if neg then -n else n)

/-- The constructor of `EventDeduplicationService`: read the TTL in hours
from the environment (default `"24"` when unset or empty, since `||` treats
the empty string as falsy), parse it, convert to seconds.  `none` models a
`NaN` TTL. -/
def ttlSecondsOfEnv (env : Option Str) : Option Int :=
  let raw : Str :=
    match env with
    | none => str ("24")
    | some s => if s = [] then str ("24") else s
  (parseIntJs raw).map (fun h => h * 3600)

example : ttlSecondsOfEnv none = some 86400 := by decide

example : ttlSecondsOfEnv (some (str ("0"))) = some 0 := by decide

example : ttlSecondsOfEnv (some (str ("-5"))) = some (-18000) := by decide

example : ttlSecondsOfEnv (some (str ("abc"))) = none := by decide

/-! ### The message-handling pipeline (`handleIncomingMessage`) -/

/-- The fields of the extraction service's analysis that the pipeline
consumes. -/
structure Analysis where
  isEvent : Bool
  summary : Option Str
  title : Option Str
  date : Option Str
  time : Option Str
  location : Option Str
  description : Option Str
  startDateISO : Option Str
  endDateISO : Option Str

/-- Delivery actions the pipeline attempts after the deduplication gate. -/
inductive SendAction where
  | sendUnified (groupId : Str) : SendAction
  | sendText (groupId : Str) : SendAction
deriving DecidableEq

def identityFieldsOf (a : Analysis) : EventHashData :=
  { title := a.title, date := a.date, time := a.time, location := a.location }

/-- The event-handling tail of `handleIncomingMessage`: gate on
`isEvent && summary`, consult `shouldProcessEvent`, and only then attempt
delivery (none when no target group is configured).  Returns the new cache
state together with the attempted deliveries; delivery failures are caught
by the source and never touch the cache. -/
def handleIncomingMessage (c : Cache) (now ttlSec : Int) (a : Analysis)
    (targetGroupId : Option Str) : Cache × List SendAction :=
  if a.isEvent ∧ a.summary.isSome then
    let hashData := identityFieldsOf a
    let r := shouldProcessEvent c now ttlSec hashData
    if r.1 = false then (r.2, [])
    else
      match targetGroupId with
      | some g =>
        if a.title.isSome ∧ a.startDateISO.isSome then
          (r.2, [SendAction.sendUnified g])
        else (r.2, [SendAction.sendText g])
      | none => (r.2, [])
  else (c, [])

/-! ### Claim theorems: deduplication cluster -/

theorem sha256Hex_length (m : Str) : (sha256Hex m).length = 64 := by
  simp [sha256Hex, word32Hex]

def optCore (t : Option Str) : Str :=
  match t with
  | none => []
  | some s => coreForm s

theorem normalizeText_eq_optCore (t : Option Str) :
    normalizeText t = stripQuotes (stripPunct (optCore t)) := by
  rcases t with _ | s
  · rfl
  · exact norm_eq_core s

theorem shouldProcessEvent_of_dup (c : Cache) (now ttl : Int)
    (d : EventHashData) (h : isDuplicateEvent c now d = true) :
    shouldProcessEvent c now ttl d = (false, c) := by
  simp [shouldProcessEvent, h]

theorem shouldProcessEvent_of_new (c : Cache) (now ttl : Int)
    (d : EventHashData) (h : isDuplicateEvent c now d = false) :
    shouldProcessEvent c now ttl d = (true, markEventAsProcessed c now ttl d) := by
  simp [shouldProcessEvent, h]

/-- C1: `shouldProcessEvent` returns `true` on the first sighting of a
fingerprint and inserts the entry; every later call with an equal
fingerprint while the entry is unexpired returns `false` without mutating
the cache; the first call after the entry's expiry returns `true` again. -/
theorem shouldProcessEvent_dedup_cycle (c : Cache) (t0 ttlSec : Int)
    (d : EventHashData) (httl : 0 < ttlSec) (ht0 : 0 ≤ t0)
    (hnew : cacheHas c t0 (generateEventHash d) = false) :
    (shouldProcessEvent c t0 ttlSec d).1 = true ∧
    (shouldProcessEvent c t0 ttlSec d).2 =
      cacheSet c t0 ttlSec (generateEventHash d) ∧
    (∀ (d' : EventHashData) (t1 : Int),
      generateEventHash d' = generateEventHash d →
      t1 ≤ t0 + ttlSec * 1000 →
      shouldProcessEvent (shouldProcessEvent c t0 ttlSec d).2 t1 ttlSec d' =
        (false, (shouldProcessEvent c t0 ttlSec d).2)) ∧
    (∀ (d' : EventHashData) (t2 : Int),
      generateEventHash d' = generateEventHash d →
      t0 + ttlSec * 1000 < t2 →
      (shouldProcessEvent (shouldProcessEvent c t0 ttlSec d).2 t2 ttlSec d').1 =
        true) := by
  have hdup : isDuplicateEvent c t0 d = false := hnew
  have hexp : (if ttlSec = 0 then (0 : Int) else t0 + ttlSec * 1000) =
      t0 + ttlSec * 1000 := by
    rw [if_neg (by omega)]
  have hr2 : (shouldProcessEvent c t0 ttlSec d).2 =
      cacheSet c t0 ttlSec (generateEventHash d) := by
    simp [shouldProcessEvent, hdup, markEventAsProcessed]
  have hlook : ∀ t' : Int, cacheHas (cacheSet c t0 ttlSec (generateEventHash d))
      t' (generateEventHash d) = (decide (t' ≤ t0 + ttlSec * 1000)) := by
    intro t'
    unfold cacheHas
    rw [cacheLookup_cacheSet_self, hexp]
    have hne : ((t0 + ttlSec * 1000 : Int) == 0) = false := by
      simp only [beq_eq_false_iff_ne, ne_eq]
      omega
    simp [hne]
  refine ⟨by simp [shouldProcessEvent, hdup], hr2, ?_, ?_⟩
  · intro d' t1 hh ht1
    have hhas : isDuplicateEvent (shouldProcessEvent c t0 ttlSec d).2 t1 d' = true := by
      unfold isDuplicateEvent
      rw [hh, hr2, hlook]
      simpa using ht1
    exact shouldProcessEvent_of_dup _ _ _ _ hhas
  · intro d' t2 hh ht2
    have hhas : isDuplicateEvent (shouldProcessEvent c t0 ttlSec d).2 t2 d' = false := by
      unfold isDuplicateEvent
      rw [hh, hr2, hlook]
      simpa using by omega
    rw [shouldProcessEvent_of_new _ _ _ _ hhas]

theorem shouldProcessEvent_dedup_cycle_witness :
    cacheHas [] 0 (generateEventHash ⟨none, none, none, none⟩) = false ∧
    (shouldProcessEvent [] 0 1 ⟨none, none, none, none⟩).1 = true ∧
    shouldProcessEvent (shouldProcessEvent [] 0 1 ⟨none, none, none, none⟩).2
        500 1 ⟨none, none, none, none⟩ =
      (false, (shouldProcessEvent [] 0 1 ⟨none, none, none, none⟩).2) ∧
    (shouldProcessEvent (shouldProcessEvent [] 0 1 ⟨none, none, none, none⟩).2
        2000 1 ⟨none, none, none, none⟩).1 = true := by
  have h := shouldProcessEvent_dedup_cycle [] 0 1 ⟨none, none, none, none⟩
    (by decide) (by decide) (by decide)
  exact ⟨by decide, h.1, h.2.2.1 _ 500 rfl (by decide), h.2.2.2 _ 2000 rfl (by decide)⟩

/-- C4 counterexample: canonicalization is not idempotent; stripping the
punctuation in `"a ."` leaves a trailing space that a second application
removes. -/
theorem normalizeText_not_idempotent :
    normalizeText (some (normalizeText (some (str ("a ."))))) ≠
      normalizeText (some (str ("a ."))) := by
  decide

/-- C4 (amended): canonicalization is idempotent from the second
application on: applying it twice gives a fixed point of itself. -/
theorem normalizeText_idem_from_second (s : Str) :
    normalizeText (some (normalizeText (some (normalizeText (some s))))) =
      normalizeText (some (normalizeText (some s))) :=
  norm_fix_of_pqFree _ (pqFree_normalizeText (some s))

/-- C5 counterexample: two titles differing only in whitespace and the
punctuation set (`"a ."` vs `"a"`) produce different canonical forms and
different fingerprints, because punctuation is stripped after whitespace
collapsing. -/
theorem generateEventHash_not_punct_insensitive :
    normalizeText (some (str ("a ."))) ≠ normalizeText (some (str ("a"))) ∧
    generateEventHash ⟨some (str ("a .")), none, none, none⟩ ≠
      generateEventHash ⟨some (str ("a")), none, none, none⟩ := by
  constructor
  · decide
  · decide

/-- C5 (amended): candidates whose identity fields differ only in letter
case, surrounding whitespace, and internal whitespace runs (equal
case/whitespace cores) have equal canonical forms and map to the same
fixed-length SHA-256 fingerprint. -/
theorem generateEventHash_core_congruence (d1 d2 : EventHashData)
    (ht : optCore d1.title = optCore d2.title)
    (hd : optCore d1.date = optCore d2.date)
    (hm : optCore d1.time = optCore d2.time)
    (hl : optCore d1.location = optCore d2.location) :
    (normalizeText d1.title = normalizeText d2.title ∧
     normalizeText d1.date = normalizeText d2.date ∧
     normalizeText d1.time = normalizeText d2.time ∧
     normalizeText d1.location = normalizeText d2.location) ∧
    generateEventHash d1 = generateEventHash d2 ∧
    (generateEventHash d1).length = 64 := by
  have et : normalizeText d1.title = normalizeText d2.title := by
    rw [normalizeText_eq_optCore, normalizeText_eq_optCore, ht]
  have ed : normalizeText d1.date = normalizeText d2.date := by
    rw [normalizeText_eq_optCore, normalizeText_eq_optCore, hd]
  have em : normalizeText d1.time = normalizeText d2.time := by
    rw [normalizeText_eq_optCore, normalizeText_eq_optCore, hm]
  have el : normalizeText d1.location = normalizeText d2.location := by
    rw [normalizeText_eq_optCore, normalizeText_eq_optCore, hl]
  have hsrc : hashSource d1 = hashSource d2 := by
    unfold hashSource
    rw [et, ed, em, el]
  refine ⟨⟨et, ed, em, el⟩, ?_, sha256Hex_length _⟩
  unfold generateEventHash
  rw [hsrc]

theorem generateEventHash_core_congruence_witness :
    (normalizeText (some (str ("A  b"))) = normalizeText (some (str (" a b"))) ∧
     normalizeText none = normalizeText none ∧
     normalizeText none = normalizeText none ∧
     normalizeText none = normalizeText none) ∧
    generateEventHash ⟨some (str ("A  b")), none, none, none⟩ =
      generateEventHash ⟨some (str (" a b")), none, none, none⟩ ∧
    (generateEventHash ⟨some (str ("A  b")), none, none, none⟩).length = 64 :=
  generateEventHash_core_congruence
    ⟨some (str ("A  b")), none, none, none⟩
    ⟨some (str (" a b")), none, none, none⟩
    (by decide) (by decide) (by decide) (by decide)

/-- C9 counterexample: a non-positive retention duration is neither
rejected nor clamped: `EVENT_DEDUPLICATION_TTL_HOURS = "0"` yields a TTL of
0 seconds (which NodeCache treats as never-expiring) and `"-5"` yields
-18000 seconds, not the 86400-second default. -/
theorem ttl_nonpositive_accepted :
    ttlSecondsOfEnv (some (str ("0"))) = some 0 ∧
    ttlSecondsOfEnv (some (str ("0"))) ≠ some 86400 ∧
    ttlSecondsOfEnv (some (str ("-5"))) = some (-18000) := by
  refine ⟨by decide, by decide, by decide⟩

/-- C9 (amended): the constructor performs no validation: it computes
`parseInt(env || "24") * 3600` verbatim, so any parsed value including
non-positive ones is used as-is, the 24-hour default applies only when the
variable is unset or empty, and a non-numeric value propagates as NaN. -/
theorem ttlSecondsOfEnv_spec (s : Str) (n : Int) (hs : s ≠ [])
    (hp : parseIntJs s = some n) :
    ttlSecondsOfEnv (some s) = some (n * 3600) ∧
    ttlSecondsOfEnv none = some 86400 ∧
    ttlSecondsOfEnv (some []) = some 86400 ∧
    (∀ s', s' ≠ [] → parseIntJs s' = none → ttlSecondsOfEnv (some s') = none) := by
  refine ⟨?_, by decide, by decide, ?_⟩
  · simp [ttlSecondsOfEnv, hs, hp]
  · intro s' hs' hp'
    simp [ttlSecondsOfEnv, hs', hp']

theorem ttlSecondsOfEnv_spec_witness :
    ttlSecondsOfEnv (some (str ("-5"))) = some (-5 * 3600) ∧
    ttlSecondsOfEnv none = some 86400 ∧
    ttlSecondsOfEnv (some []) = some 86400 ∧
    (∀ s', s' ≠ [] → parseIntJs s' = none → ttlSecondsOfEnv (some s') = none) :=
  ttlSecondsOfEnv_spec (str ("-5")) (-5) (by decide) (by decide)

/-- C10: the pipeline inserts the fingerprint via `shouldProcessEvent`
before any delivery attempt and never rolls it back: the resulting cache is
the same whether or not a target group exists (and delivery failures are
caught downstream of the cache), no delivery is attempted without a target
group, and any later candidate with an equal fingerprint inside the
retention window is suppressed even though nothing was ever announced. -/
theorem handleIncomingMessage_of_suppressed (c : Cache) (now ttlSec : Int)
    (a : Analysis) (g : Option Str)
    (hisev : a.isEvent = true) (hsum : a.summary.isSome = true)
    (h : shouldProcessEvent c now ttlSec (identityFieldsOf a) = (false, c)) :
    handleIncomingMessage c now ttlSec a g = (c, []) := by
  unfold handleIncomingMessage
  rw [if_pos ⟨hisev, hsum⟩]
  simp [h]

theorem handleIncomingMessage_marks_before_delivery (c : Cache)
    (t ttlSec : Int) (a : Analysis) (g : Option Str)
    (hisev : a.isEvent = true) (hsum : a.summary.isSome = true)
    (httl : 0 < ttlSec) (ht0 : 0 ≤ t)
    (hnew : cacheHas c t (generateEventHash (identityFieldsOf a)) = false) :
    (handleIncomingMessage c t ttlSec a g).1 =
      cacheSet c t ttlSec (generateEventHash (identityFieldsOf a)) ∧
    (∀ g', (handleIncomingMessage c t ttlSec a g').1 =
      (handleIncomingMessage c t ttlSec a g).1) ∧
    (g = none → (handleIncomingMessage c t ttlSec a g).2 = []) ∧
    (∀ (a' : Analysis) (t' : Int) (g' : Option Str),
      a'.isEvent = true → a'.summary.isSome = true →
      generateEventHash (identityFieldsOf a') =
        generateEventHash (identityFieldsOf a) →
      t' ≤ t + ttlSec * 1000 →
      handleIncomingMessage (handleIncomingMessage c t ttlSec a g).1 t' ttlSec a' g'
        = ((handleIncomingMessage c t ttlSec a g).1, [])) := by
  have hcyc := shouldProcessEvent_dedup_cycle c t ttlSec (identityFieldsOf a)
    httl ht0 hnew
  have hfst : (shouldProcessEvent c t ttlSec (identityFieldsOf a)).1 = true :=
    hcyc.1
  have hmain : ∀ g0, (handleIncomingMessage c t ttlSec a g0).1 =
      (shouldProcessEvent c t ttlSec (identityFieldsOf a)).2 := by
    intro g0
    unfold handleIncomingMessage
    rw [if_pos ⟨hisev, hsum⟩]
    simp only [hfst]
    rcases g0 with _ | g1
    · simp
    · by_cases hc : a.title.isSome ∧ a.startDateISO.isSome
      · simp [hc]
      · simp [hc]
  refine ⟨by rw [hmain g, hcyc.2.1], fun g' => by rw [hmain g', hmain g], ?_, ?_⟩
  · intro hg
    subst hg
    unfold handleIncomingMessage
    rw [if_pos ⟨hisev, hsum⟩]
    simp only [hfst]
    simp
  · intro a' t' g' hisev' hsum' hh ht'
    have hsupp := hcyc.2.2.1 (identityFieldsOf a') t' hh ht'
    rw [hmain g]
    exact handleIncomingMessage_of_suppressed _ _ _ _ _ hisev' hsum' hsupp

theorem handleIncomingMessage_marks_before_delivery_witness :
    (handleIncomingMessage [] 0 1
        ⟨true, some [], none, none, none, none, none, none, none⟩ none).1 =
      cacheSet [] 0 1 (generateEventHash
        (identityFieldsOf ⟨true, some [], none, none, none, none, none, none, none⟩)) ∧
    (handleIncomingMessage [] 0 1
        ⟨true, some [], none, none, none, none, none, none, none⟩ none).2 = [] ∧
    handleIncomingMessage
        (handleIncomingMessage [] 0 1
          ⟨true, some [], none, none, none, none, none, none, none⟩ none).1
        900 1 ⟨true, some [], none, none, none, none, none, none, none⟩
        (some (str ("g")))
      = ((handleIncomingMessage [] 0 1
          ⟨true, some [], none, none, none, none, none, none, none⟩ none).1, []) := by
  have h := handleIncomingMessage_marks_before_delivery [] 0 1
    ⟨true, some [], none, none, none, none, none, none, none⟩ none
    rfl rfl (by decide) (by decide) (by decide)
  exact ⟨h.1, h.2.2.1 rfl, h.2.2.2 _ 900 (some (str ("g"))) rfl rfl rfl (by decide)⟩

/-! ### Civil calendar arithmetic (the JavaScript `Date` model)

Epoch milliseconds are `Int`; a fixed civil offset in minutes models the
single local timezone the resolver assumes.  `civilFromDays` and
`daysFromCivil` convert between epoch day numbers and proleptic Gregorian
dates exactly as the JavaScript `Date` runtime does. -/

/-- Proleptic Gregorian civil date (year, month 1..12, day) of an epoch day
number, via uniform-scaling era/century/quadrennium decomposition. -/
def civilFromDays (z : Int) : Int × Int × Int :=
  let z' := z + 719468
  let era := z' / 146097
  let doe := z' % 146097
  let cent := (4 * doe + 3) / 146097
  let dg := ((4 * doe + 3) % 146097) / 4
  let yoc := (4 * dg + 3) / 1461
  let doy := ((4 * dg + 3) % 1461) / 4
  let yoe := 100 * cent + yoc
  let y := yoe + era * 400
  let mp := (5 * doy + 2) / 153
  let d := doy - (153 * mp + 2) / 5 + 1
  let m := if mp < 10 then mp + 3 else mp - 9
  (if m ≤ 2 then y + 1 else y, m, d)

/-- Epoch day number of a civil date (month 1-based; linear in `d`, so
out-of-range day numbers normalize exactly as JavaScript `Date` does). -/
def daysFromCivil (y m d : Int) : Int :=
  let y' := if m ≤ 2 then y - 1 else y
  let era := y' / 400
  let yoe := y' - era * 400
  let mp := if 2 < m then m - 3 else m + 9
  let doy := (153 * mp + 2) / 5 + d - 1
  let doe := yoe * 365 + yoe / 4 - yoe / 100 + doy
  era * 146097 + doe - 719468

example : civilFromDays 0 = (1970, 1, 1) := by decide

example : daysFromCivil 2024 12 25 = 20082 := by decide

example : civilFromDays 20082 = (2024, 12, 25) := by decide

set_option maxHeartbeats 1600000 in
theorem daysFromCivil_civilFromDays (z : Int) :
    daysFromCivil (civilFromDays z).1 (civilFromDays z).2.1 (civilFromDays z).2.2 = z := by
  unfold civilFromDays daysFromCivil
  dsimp only
  set z' := z + 719468 with hz'
  set era := z' / 146097 with hera
  set doe := z' % 146097 with hdoe
  set cent := (4 * doe + 3) / 146097 with hcent
  set dg := (4 * doe + 3) % 146097 / 4 with hdg
  set yoc := (4 * dg + 3) / 1461 with hyoc
  set doy := (4 * dg + 3) % 1461 / 4 with hdoy
  have h1 : 0 ≤ doe ∧ doe < 146097 := by omega
  have h2 : 0 ≤ cent ∧ cent ≤ 3 ∧ doe = 36524 * cent + dg ∧ 0 ≤ dg ∧ dg ≤ 36524 := by
    omega
  have h3 : 0 ≤ yoc ∧ yoc ≤ 99 ∧ dg = 365 * yoc + yoc / 4 + doy ∧ 0 ≤ doy ∧ doy ≤ 365 := by
    omega
  set mp := (5 * doy + 2) / 153 with hmp
  have h4 : 0 ≤ mp ∧ mp ≤ 11 := by omega
  have h5 : (100 * cent + yoc + era * 400) / 400 = era := by omega
  have h6 : (100 * cent + yoc + era * 400 -
      (100 * cent + yoc + era * 400) / 400 * 400) = 100 * cent + yoc := by omega
  have h7 : (100 * cent + yoc + era * 400 -
      (100 * cent + yoc + era * 400) / 400 * 400) / 4 = 25 * cent + yoc / 4 := by
    omega
  have h8 : (100 * cent + yoc + era * 400 -
      (100 * cent + yoc + era * 400) / 400 * 400) / 100 = cent := by omega
  split_ifs <;> (try simp only [Int.add_sub_cancel, Int.sub_add_cancel]) <;> omega

theorem daysFromCivil_add (y m d k : Int) :
    daysFromCivil y m (d + k) = daysFromCivil y m d + k := by
  unfold daysFromCivil
  dsimp only
  split_ifs <;> ring

/-- Local civil day number at a fixed offset of `off` minutes. -/
def localDayOf (off ms : Int) : Int := (ms + off * 60000) / 86400000

/-- Local time of day in milliseconds. -/
def localTodOf (off ms : Int) : Int := (ms + off * 60000) % 86400000

/-- Epoch milliseconds of a local day number and time of day. -/
def msOf (off day tod : Int) : Int := day * 86400000 + tod - off * 60000

/-- `Date.prototype.getDay` (epoch day 0 is a Thursday). -/
def getDayJs (off ms : Int) : Int := (localDayOf off ms + 4) % 7

/-- `Date.prototype.getDate`. -/
def getDateJs (off ms : Int) : Int := (civilFromDays (localDayOf off ms)).2.2

/-- `Date.prototype.getHours`. -/
def getHoursJs (off ms : Int) : Int := localTodOf off ms / 3600000

/-- `Date.prototype.getMinutes`. -/
def getMinutesJs (off ms : Int) : Int := localTodOf off ms % 3600000 / 60000

/-- `Date.prototype.setDate`: keep the local year/month and time of day,
replace the day of month (out-of-range values roll over). -/
def setDateJs (off ms d : Int) : Int :=
  let ld := localDayOf off ms
  let c := civilFromDays ld
  msOf off (daysFromCivil c.1 c.2.1 d) (localTodOf off ms)

/-- `Date.prototype.setMonth` with a 0-based month index. -/
def setMonthJs (off ms m0 : Int) : Int :=
  let ld := localDayOf off ms
  let c := civilFromDays ld
  msOf off (daysFromCivil c.1 (m0 + 1) c.2.2) (localTodOf off ms)

/-- `Date.prototype.setHours(h, m, 0, 0)`. -/
def setHoursJs (off ms h min : Int) : Int :=
  msOf off (localDayOf off ms) (h * 3600000 + min * 60000)

/-- `new Date(y, m0, d)` (0-based month, local midnight); months and days
outside their ranges roll over as in JavaScript. -/
def newDateYMDJs (off y m0 d : Int) : Int :=
  msOf off (daysFromCivil (y + m0 / 12) (m0 % 12 + 1) d) 0

theorem localTodOf_nonneg (off ms : Int) : 0 ≤ localTodOf off ms :=
  Int.emod_nonneg _ (by norm_num)

theorem localTodOf_lt (off ms : Int) : localTodOf off ms < 86400000 :=
  Int.emod_lt_of_pos _ (by norm_num)

theorem localDayOf_msOf (off day tod : Int) (h0 : 0 ≤ tod)
    (h1 : tod < 86400000) : localDayOf off (msOf off day tod) = day := by
  unfold localDayOf msOf
  omega

theorem localTodOf_msOf (off day tod : Int) (h0 : 0 ≤ tod)
    (h1 : tod < 86400000) : localTodOf off (msOf off day tod) = tod := by
  unfold localTodOf msOf
  omega

/-- `setDate(getDate() + k)` moves the local day number by exactly `k` and
keeps the time of day: this is how the resolver adds days. -/
theorem setDateJs_add (off ms k : Int) :
    localDayOf off (setDateJs off ms (getDateJs off ms + k)) =
      localDayOf off ms + k ∧
    localTodOf off (setDateJs off ms (getDateJs off ms + k)) =
      localTodOf off ms := by
  unfold setDateJs getDateJs
  dsimp only
  rw [daysFromCivil_add, daysFromCivil_civilFromDays]
  exact ⟨localDayOf_msOf _ _ _ (localTodOf_nonneg off ms) (localTodOf_lt off ms),
    localTodOf_msOf _ _ _ (localTodOf_nonneg off ms) (localTodOf_lt off ms)⟩

/-! ### Phrase matching (`String.includes` and the date/time regexes) -/

/-- `String.prototype.includes`. -/
def hasSub : Str → Str → Bool
  | [], pat => pat.isEmpty
  | c :: t, pat => pat.isPrefixOf (c :: t) || hasSub t pat

example : hasSub (str ("next wednesday")) (str ("next")) = true := by decide

example : hasSub (str ("wednesday")) (str ("next")) = false := by decide

def isSepChar (c : Nat) : Bool := c == 47 || c == 46

/-- Year group `(\d{2,4})`: greedy, needs at least two digits. -/
def absYear (v1 v2 : Nat) (s : Str) : Option (Int × Int × Int) :=
  let n := countLeadingDigits s
  if n < 2 then none
  else some (Int.ofNat v1, Int.ofNat v2,
    Int.ofNat (digitsToNat 0 (s.take (min n 4))))

/-- After the second separator of the absolute-date regex. -/
def absTail3 (v1 v2 : Nat) (s : Str) : Option (Int × Int × Int) :=
  match s with
  | sep :: rest => if isSepChar sep then absYear v1 v2 rest else none
  | [] => none

/-- Second group `(\d{1,2})` then separator, greedy with backtracking. -/
def absTail2 (v1 : Nat) (s : Str) : Option (Int × Int × Int) :=
  match s with
  | a :: b :: rest =>
    if isDigitChar a ∧ isDigitChar b then
      match absTail3 v1 ((a - 48) * 10 + (b - 48)) rest with
      | some r => some r
      | none => absTail3 v1 (a - 48) (b :: rest)
    else if isDigitChar a then absTail3 v1 (a - 48) (b :: rest)
    else none
  | [_] => none
  | [] => none

/-- After the first group: expect a separator. -/
def absTail1 (v1 : Nat) (s : Str) : Option (Int × Int × Int) :=
  match s with
  | sep :: rest => if isSepChar sep then absTail2 v1 rest else none
  | [] => none

/-- One anchored attempt of `(\d{1,2})[\/\.](\d{1,2})[\/\.](\d{2,4})`. -/
def absAt (s : Str) : Option (Int × Int × Int) :=
  match s with
  | a :: b :: rest =>
    if isDigitChar a ∧ isDigitChar b then
      match absTail1 ((a - 48) * 10 + (b - 48)) rest with
      | some r => some r
      | none => absTail1 (a - 48) (b :: rest)
    else if isDigitChar a then absTail1 (a - 48) (b :: rest)
    else none
  | [_] => none
  | [] => none

/-- First match of the absolute-date regex, scanning left to right. -/
def absDateMatch : Str → Option (Int × Int × Int)
  | [] => none
  | c :: rest =>
    match absAt (c :: rest) with
    | some r => some r
    | none => absDateMatch rest

example : absDateMatch (str ("on 25/12/2024 ok")) = some (25, 12, 2024) := by decide

example : absDateMatch (str ("25.12.24")) = some (25, 12, 24) := by decide

example : absDateMatch (str ("123/4/56")) = some (23, 4, 56) := by decide

example : absDateMatch (str ("wednesday")) = none := by decide

def monthNames : List Str :=
  [str ("january"), str ("february"), str ("march"), str ("april"),
   str ("may"), str ("june"), str ("july"), str ("august"),
   str ("september"), str ("october"), str ("november"), str ("december")]

def monthAt (s : Str) : Bool := monthNames.any (fun n => n.isPrefixOf s)

/-- One anchored attempt of `\d{1,2} (?:January|...|December)` (the phrase
is already lowercased; the regex carries the `i` flag). -/
def mdAt (s : Str) : Bool :=
  match s with
  | a :: b :: rest =>
    (isDigitChar a && isDigitChar b &&
      (match rest with
       | 32 :: r2 => monthAt r2
       | _ => false)) ||
    (isDigitChar a && b == 32 && monthAt rest)
  | _ => false

def monthDayPattern : Str → Bool
  | [] => false
  | c :: rest => mdAt (c :: rest) || monthDayPattern rest

example : monthDayPattern (str ("25 december party")) = true := by decide

example : monthDayPattern (str ("december 25")) = false := by decide

/-- First match of `(\d{1,2})` anywhere in the phrase. -/
def firstNumMatch : Str → Option Nat
  | [] => none
  | c :: rest =>
    if isDigitChar c then
      some (match rest with
        | d :: _ => if isDigitChar d then (c - 48) * 10 + (d - 48) else c - 48
        | [] => c - 48)
    else firstNumMatch rest

def dayNames : List Str :=
  [str ("sunday"), str ("monday"), str ("tuesday"), str ("wednesday"),
   str ("thursday"), str ("friday"), str ("saturday")]

def hebNames : List Str :=
  [str ("ראשון"), str ("שני"), str ("שלישי"), str ("רביעי"),
   str ("חמישי"), str ("שישי"), str ("שבת")]

/-- The whole date-phrase block of `createEventVCard`: lowercase the phrase
and resolve it against the reference instant with the documented precedence
(absolute numeric date, month name + day, English weekday, Hebrew weekday,
tomorrow, today / unrecognized). -/
def parseDatePhrase (off refMs : Int) (dp : Option Str) : Int :=
  match dp with
  | none => refMs
  | some raw =>
    if raw = [] then refMs
    else
      let s := lowerStr raw
      match absDateMatch s with
      | some (day, mo, yr) =>
          newDateYMDJs off (if yr < 100 then yr + 2000 else yr) (mo - 1) day
      | none =>
        if monthDayPattern s then
          match List.findIdx? (fun n => hasSub s n) monthNames,
              firstNumMatch s with
          | some i, some day =>
              setDateJs off (setMonthJs off refMs (Int.ofNat i)) (Int.ofNat day)
          | _, _ => refMs
        else if dayNames.any (fun n => hasSub s n) then
          match List.findIdx? (fun n => hasSub s n) dayNames with
          | some w =>
            let cur := getDayJs off refMs
            let d0 : Int := Int.ofNat w - cur
            let k := if hasSub s (str ("next")) = true then d0 + 7
              else if d0 ≤ 0 ∧ hasSub s (str ("today")) = false then d0 + 7
              else d0
            setDateJs off refMs (getDateJs off refMs + k)
          | none => refMs
        else if hebNames.any (fun n => hasSub s ((str ("יום ")) ++ n)) then
          match List.findIdx? (fun n => hasSub s n) hebNames with
          | some w =>
            let cur := getDayJs off refMs
            let d0 : Int := Int.ofNat w - cur
            let k := if (hasSub s (str ("הבא")) || hasSub s (str ("הקרוב"))) = true
                then d0 + 7
              else if d0 ≤ 0 then d0 + 7
              else d0
            setDateJs off refMs (getDateJs off refMs + k)
          | none => refMs
        else if hasSub s (str ("tomorrow")) = true then
          setDateJs off refMs (getDateJs off refMs + 1)
        else refMs

/-- First match of `(\d{1,2})(?::(\d{2}))?`; missing minutes are 0. -/
def jsTimeMatch : Str → Option (Int × Int)
  | [] => none
  | c :: rest =>
    if isDigitChar c then
      let hr : Nat × Str :=
        match rest with
        | d :: r2 => if isDigitChar d then ((c - 48) * 10 + (d - 48), r2)
          else (c - 48, rest)
        | [] => (c - 48, rest)
      let mins : Nat :=
        match hr.2 with
        | 58 :: m1 :: m2 :: _ =>
          if isDigitChar m1 ∧ isDigitChar m2 then (m1 - 48) * 10 + (m2 - 48)
          else 0
        | _ => 0
      some (Int.ofNat hr.1, Int.ofNat mins)
    else jsTimeMatch rest

example : jsTimeMatch (str ("3 pm")) = some (3, 0) := by decide

example : jsTimeMatch (str ("בשעה 18:30")) = some (18, 30) := by decide

example : jsTimeMatch (str ("noon")) = none := by decide

/-- The time-phrase block of `createEventVCard`: an absent (or empty) time
phrase defaults to 08:00; a phrase with no digit leaves the event date's
time of day untouched; otherwise the matched hour and minutes are applied
with the pm/am adjustments. -/
def applyTimePhrase (off ms : Int) (tp : Option Str) : Int :=
  match tp with
  | none => setHoursJs off ms 8 0
  | some raw =>
    if raw = [] then setHoursJs off ms 8 0
    else
      let s := lowerStr raw
      match jsTimeMatch s with
      | none => ms
      | some (h, m) =>
        let h' := if hasSub s (str ("pm")) = true ∧ h < 12 then h + 12
          else if hasSub s (str ("am")) = true ∧ h = 12 then 0
          else h
        setHoursJs off ms h' m

/-- The fallback temporal resolver of `createEventVCard`: resolve the date
phrase, then the time phrase, and derive the end instant one hour later. -/
def resolveEventInstants (off refMs : Int) (dp tp : Option Str) : Int × Int :=
  let ev := applyTimePhrase off (parseDatePhrase off refMs dp) tp
  (ev, ev + 3600000)

example : parseDatePhrase 0 0 (some (str ("25/12/2024"))) = 20082 * 86400000 := by
  decide

example : parseDatePhrase 0 (6 * 86400000) (some (str ("wednesday"))) =
    13 * 86400000 := by decide

example : parseDatePhrase 0 (6 * 86400000) (some (str ("next wednesday"))) =
    13 * 86400000 := by decide

example : parseDatePhrase 0 (6 * 86400000) (some (str ("יום רביעי"))) =
    13 * 86400000 := by decide

example : parseDatePhrase 0 (6 * 86400000) (some (str ("wednesday today"))) =
    6 * 86400000 := by decide

example : parseDatePhrase 0 (6 * 86400000) (some (str ("tomorrow"))) =
    7 * 86400000 := by decide

example : parseDatePhrase 0 0 (some (str ("25 december"))) = 358 * 86400000 := by
  decide

example : applyTimePhrase 0 0 (some (str ("3 pm"))) = 15 * 3600000 := by decide

example : resolveEventInstants 0 (6 * 86400000) (some (str ("wednesday")))
    none = (13 * 86400000 + 8 * 3600000, 13 * 86400000 + 9 * 3600000) := by decide

/-! ### Claim theorems: temporal resolver -/

/-- C2: for every date phrase, time phrase and reference instant, the
resolver terminates (it is a total function) and returns an instant pair
with the end exactly 60 minutes after the start, hence strictly later,
however the start was derived. -/
theorem resolveEventInstants_end_is_start_plus_hour (off refMs : Int)
    (dp tp : Option Str) :
    (resolveEventInstants off refMs dp tp).2 =
      (resolveEventInstants off refMs dp tp).1 + 3600000 ∧
    (resolveEventInstants off refMs dp tp).1 <
      (resolveEventInstants off refMs dp tp).2 := by
  unfold resolveEventInstants
  dsimp only
  exact ⟨rfl, by omega⟩

/-- C3: an English weekday-name phrase with no `next` modifier whose target
weekday equals the reference weekday resolves to the local date exactly 7
days after the reference date — unless the phrase contains `today`, in
which case it resolves to the reference date itself.  The time of day is
left untouched by the date step. -/
theorem weekday_same_day_rolls_forward (off refMs : Int) (raw : Str)
    (w : Nat) (hraw : raw ≠ [])
    (habs : absDateMatch (lowerStr raw) = none)
    (hmd : monthDayPattern (lowerStr raw) = false)
    (hany : dayNames.any (fun n => hasSub (lowerStr raw) n) = true)
    (heng : List.findIdx? (fun n => hasSub (lowerStr raw) n) dayNames = some w)
    (hw : Int.ofNat w = getDayJs off refMs)
    (hnext : hasSub (lowerStr raw) (str ("next")) = false) :
    localDayOf off (parseDatePhrase off refMs (some raw)) =
      localDayOf off refMs +
        (if hasSub (lowerStr raw) (str ("today")) = true then 0 else 7) ∧
    localTodOf off (parseDatePhrase off refMs (some raw)) =
      localTodOf off refMs := by
  have hstep : parseDatePhrase off refMs (some raw) =
      setDateJs off refMs (getDateJs off refMs +
        (if hasSub (lowerStr raw) (str ("today")) = true then 0 else 7)) := by
    unfold parseDatePhrase
    dsimp only
    rw [if_neg hraw]
    simp only [habs]
    simp only [hmd]
    simp only [Bool.false_eq_true, if_false, ite_false, hany, if_true, ite_true,
      heng]
    rw [hnext, ← hw]
    simp only [sub_self]
    by_cases ht : hasSub (lowerStr raw) (str ("today")) = true
    · simp [ht]
    · have ht' : hasSub (lowerStr raw) (str ("today")) = false := by
        cases hb : hasSub (lowerStr raw) (str ("today"))
        · rfl
        · exact absurd hb ht
      simp [ht']
  rw [hstep]
  exact setDateJs_add off refMs _

theorem weekday_same_day_rolls_forward_witness :
    localDayOf 0 (parseDatePhrase 0 (6 * 86400000) (some (str ("wednesday")))) =
      localDayOf 0 (6 * 86400000) + 7 ∧
    localDayOf 0 (parseDatePhrase 0 (6 * 86400000)
        (some (str ("wednesday today")))) =
      localDayOf 0 (6 * 86400000) + 0 := by
  have h1 := weekday_same_day_rolls_forward 0 (6 * 86400000)
    (str ("wednesday")) 3 (by decide) (by decide) (by decide) (by decide)
    (by decide) (by decide) (by decide)
  have h2 := weekday_same_day_rolls_forward 0 (6 * 86400000)
    (str ("wednesday today")) 3 (by decide) (by decide) (by decide) (by decide)
    (by decide) (by decide) (by decide)
  constructor
  · have := h1.1
    rwa [if_neg (by decide)] at this
  · have := h2.1
    rwa [if_pos (by decide)] at this

/-- C7 counterexample: the Hebrew weekday branch has no `today` exception.
On a reference Wednesday, the English phrase with a today marker resolves
to the reference date, while the corresponding Hebrew weekday phrase with
the same marker rolls a week forward: the two branches are not
extensionally equal on today-marked phrases. -/
theorem hebrew_weekday_today_divergence :
    parseDatePhrase 0 (6 * 86400000) (some (str ("wednesday today"))) =
      6 * 86400000 ∧
    parseDatePhrase 0 (6 * 86400000) (some (str ("יום רביעי today"))) =
      13 * 86400000 ∧
    parseDatePhrase 0 (6 * 86400000) (some (str ("wednesday today"))) ≠
      parseDatePhrase 0 (6 * 86400000) (some (str ("יום רביעי today"))) := by
  refine ⟨by decide, by decide, by decide⟩

/-- C7 (amended): for phrases carrying no today marker, the Hebrew weekday
branch resolves exactly as the English branch: same first-matched weekday
index and matching next/upcoming modifiers give identical instants for the
same reference instant. -/
theorem hebrew_english_weekday_equivalence (off refMs : Int)
    (rawE rawH : Str) (w : Nat)
    (hrawE : rawE ≠ []) (hrawH : rawH ≠ [])
    (habsE : absDateMatch (lowerStr rawE) = none)
    (hmdE : monthDayPattern (lowerStr rawE) = false)
    (hanyE : dayNames.any (fun n => hasSub (lowerStr rawE) n) = true)
    (hengE : List.findIdx? (fun n => hasSub (lowerStr rawE) n) dayNames = some w)
    (habsH : absDateMatch (lowerStr rawH) = none)
    (hmdH : monthDayPattern (lowerStr rawH) = false)
    (hanyH : dayNames.any (fun n => hasSub (lowerStr rawH) n) = false)
    (hhebAny : hebNames.any
      (fun n => hasSub (lowerStr rawH) ((str ("יום ")) ++ n)) = true)
    (hhebIdx : List.findIdx? (fun n => hasSub (lowerStr rawH) n) hebNames = some w)
    (hmod : hasSub (lowerStr rawE) (str ("next")) =
      (hasSub (lowerStr rawH) (str ("הבא")) || hasSub (lowerStr rawH) (str ("הקרוב"))))
    (htod : hasSub (lowerStr rawE) (str ("today")) = false) :
    parseDatePhrase off refMs (some rawE) = parseDatePhrase off refMs (some rawH) := by
  have hE : parseDatePhrase off refMs (some rawE) =
      setDateJs off refMs (getDateJs off refMs +
        (if hasSub (lowerStr rawE) (str ("next")) = true
          then Int.ofNat w - getDayJs off refMs + 7
          else if Int.ofNat w - getDayJs off refMs ≤ 0
            then Int.ofNat w - getDayJs off refMs + 7
            else Int.ofNat w - getDayJs off refMs)) := by
    unfold parseDatePhrase
    dsimp only
    rw [if_neg hrawE]
    simp only [habsE]
    simp only [hmdE]
    simp only [Bool.false_eq_true, if_false, ite_false, hanyE, if_true,
      ite_true, hengE, htod]
    by_cases hn : hasSub (lowerStr rawE) (str ("next")) = true
    · simp [hn]
    · have hn' : hasSub (lowerStr rawE) (str ("next")) = false := by
        cases hb : hasSub (lowerStr rawE) (str ("next"))
        · rfl
        · exact absurd hb hn
      by_cases hle : Int.ofNat w - getDayJs off refMs ≤ 0
      · simp [hn', hle]
      · simp [hn', hle]
  have hH : parseDatePhrase off refMs (some rawH) =
      setDateJs off refMs (getDateJs off refMs +
        (if (hasSub (lowerStr rawH) (str ("הבא")) ||
            hasSub (lowerStr rawH) (str ("הקרוב"))) = true
          then Int.ofNat w - getDayJs off refMs + 7
          else if Int.ofNat w - getDayJs off refMs ≤ 0
            then Int.ofNat w - getDayJs off refMs + 7
            else Int.ofNat w - getDayJs off refMs)) := by
    unfold parseDatePhrase
    dsimp only
    rw [if_neg hrawH]
    simp only [habsH]
    simp only [hmdH]
    simp only [Bool.false_eq_true, if_false, ite_false, hanyH, hhebAny,
      if_true, ite_true, hhebIdx]
  rw [hE, hH, hmod]

theorem hebrew_english_weekday_equivalence_witness :
    parseDatePhrase 0 (6 * 86400000) (some (str ("wednesday"))) =
      parseDatePhrase 0 (6 * 86400000) (some (str ("יום רביעי"))) ∧
    parseDatePhrase 0 (6 * 86400000) (some (str ("next wednesday"))) =
      parseDatePhrase 0 (6 * 86400000) (some (str ("יום רביעי הבא"))) := by
  constructor
  · exact hebrew_english_weekday_equivalence 0 (6 * 86400000)
      (str ("wednesday")) (str ("יום רביעי")) 3 (by decide) (by decide)
      (by decide) (by decide) (by decide) (by decide) (by decide) (by decide)
      (by decide) (by decide) (by decide) (by decide) (by decide)
  · exact hebrew_english_weekday_equivalence 0 (6 * 86400000)
      (str ("next wednesday")) (str ("יום רביעי הבא")) 3 (by decide) (by decide)
      (by decide) (by decide) (by decide) (by decide) (by decide) (by decide)
      (by decide) (by decide) (by decide) (by decide) (by decide)

theorem getHours_setHours (off ms h m : Int) (h0 : 0 ≤ h) (h1 : h < 24)
    (m0 : 0 ≤ m) (m1 : m < 60) :
    getHoursJs off (setHoursJs off ms h m) = h ∧
    getMinutesJs off (setHoursJs off ms h m) = m := by
  unfold getHoursJs getMinutesJs setHoursJs msOf localTodOf localDayOf
  constructor <;> omega

/-- C6 counterexample: a present but unrecognized time phrase (no digits)
does not default to 08:00 — it leaves the event date's time of day exactly
as it was.  At a reference local time of 12:34 the phrase "noon" resolves
to hour 12, not hour 8. -/
theorem unmatched_time_keeps_reference_time :
    applyTimePhrase 0 45240000 (some (str ("noon"))) = 45240000 ∧
    getHoursJs 0 (applyTimePhrase 0 45240000 (some (str ("noon")))) = 12 ∧
    getHoursJs 0 (applyTimePhrase 0 45240000 (some (str ("noon")))) ≠ 8 := by
  refine ⟨by decide, by decide, by decide⟩

/-- C6 (amended): time-phrase resolution.  A match `H[:MM]` with a `pm`
marker and hour < 12 adds 12 (so "3 PM" resolves to hour 15); an `am`
marker with hour 12 gives hour 0; a bare hour is taken literally with no
am/pm inference; missing minutes are 0 (built into the match); an absent
or empty phrase defaults to hour 8, minute 0; but a present phrase matching
no pattern keeps the reference time of day rather than defaulting to 8. -/
theorem applyTimePhrase_spec (off ms : Int) :
    (∀ raw h m, raw ≠ [] →
      jsTimeMatch (lowerStr raw) = some (h, m) →
      hasSub (lowerStr raw) (str ("pm")) = true → 0 ≤ h → h < 12 →
      0 ≤ m → m < 60 →
      applyTimePhrase off ms (some raw) = setHoursJs off ms (h + 12) m ∧
      getHoursJs off (applyTimePhrase off ms (some raw)) = h + 12 ∧
      getMinutesJs off (applyTimePhrase off ms (some raw)) = m) ∧
    (∀ raw h m, raw ≠ [] →
      jsTimeMatch (lowerStr raw) = some (h, m) →
      hasSub (lowerStr raw) (str ("pm")) = false →
      hasSub (lowerStr raw) (str ("am")) = true → h = 12 →
      applyTimePhrase off ms (some raw) = setHoursJs off ms 0 m) ∧
    (∀ raw h m, raw ≠ [] →
      jsTimeMatch (lowerStr raw) = some (h, m) →
      hasSub (lowerStr raw) (str ("pm")) = false →
      hasSub (lowerStr raw) (str ("am")) = false →
      0 ≤ h → h < 24 → 0 ≤ m → m < 60 →
      applyTimePhrase off ms (some raw) = setHoursJs off ms h m ∧
      getHoursJs off (applyTimePhrase off ms (some raw)) = h) ∧
    (applyTimePhrase off ms none = setHoursJs off ms 8 0 ∧
      getHoursJs off (applyTimePhrase off ms none) = 8 ∧
      getMinutesJs off (applyTimePhrase off ms none) = 0) ∧
    (∀ raw, raw ≠ [] → jsTimeMatch (lowerStr raw) = none →
      applyTimePhrase off ms (some raw) = ms) := by
  refine ⟨?_, ?_, ?_, ?_, ?_⟩
  · intro raw h m hraw hmatch hpm h0 h1 m0 m1
    have heq : applyTimePhrase off ms (some raw) = setHoursJs off ms (h + 12) m := by
      unfold applyTimePhrase
      dsimp only
      rw [if_neg hraw]
      simp only [hmatch]
      rw [if_pos ⟨hpm, h1⟩]
    refine ⟨heq, ?_, ?_⟩
    · rw [heq]
      exact (getHours_setHours off ms (h + 12) m (by omega) (by omega) m0 m1).1
    · rw [heq]
      exact (getHours_setHours off ms (h + 12) m (by omega) (by omega) m0 m1).2
  · intro raw h m hraw hmatch hpm ham h12
    unfold applyTimePhrase
    dsimp only
    rw [if_neg hraw]
    simp only [hmatch]
    rw [if_neg (by simp [hpm]), if_pos ⟨ham, h12⟩]
  · intro raw h m hraw hmatch hpm ham h0 h1 m0 m1
    have heq : applyTimePhrase off ms (some raw) = setHoursJs off ms h m := by
      unfold applyTimePhrase
      dsimp only
      rw [if_neg hraw]
      simp only [hmatch]
      rw [if_neg (by simp [hpm]), if_neg (by simp [ham])]
    exact ⟨heq, by rw [heq]; exact (getHours_setHours off ms h m h0 h1 m0 m1).1⟩
  · refine ⟨rfl, ?_, ?_⟩
    · exact (getHours_setHours off ms 8 0 (by norm_num) (by norm_num)
        (by norm_num) (by norm_num)).1
    · exact (getHours_setHours off ms 8 0 (by norm_num) (by norm_num)
        (by norm_num) (by norm_num)).2
  · intro raw hraw hmatch
    unfold applyTimePhrase
    dsimp only
    rw [if_neg hraw]
    simp only [hmatch]

theorem applyTimePhrase_spec_witness :
    applyTimePhrase 0 0 (some (str ("3 pm"))) = setHoursJs 0 0 15 0 ∧
    getHoursJs 0 (applyTimePhrase 0 0 (some (str ("3 pm")))) = 15 ∧
    applyTimePhrase 0 0 (some (str ("12 am"))) = setHoursJs 0 0 0 0 ∧
    applyTimePhrase 0 0 (some (str ("8"))) = setHoursJs 0 0 8 0 ∧
    getHoursJs 0 (applyTimePhrase 0 0 (some (str ("8")))) = 8 ∧
    applyTimePhrase 0 0 none = setHoursJs 0 0 8 0 ∧
    applyTimePhrase 0 0 (some (str ("noon"))) = 0 := by
  have h := applyTimePhrase_spec 0 0
  refine ⟨?_, ?_, ?_, ?_, ?_, h.2.2.2.1.1, h.2.2.2.2 _ (by decide) (by decide)⟩
  · have := (h.1 (str ("3 pm")) 3 0 (by decide) (by decide) (by decide)
      (by decide) (by decide) (by decide) (by decide)).1
    norm_num at this
    exact this
  · have := (h.1 (str ("3 pm")) 3 0 (by decide) (by decide) (by decide)
      (by decide) (by decide) (by decide) (by decide)).2.1
    norm_num at this
    exact this
  · exact h.2.1 (str ("12 am")) 12 0 (by decide) (by decide) (by decide)
      (by decide) (by decide)
  · exact (h.2.2.1 (str ("8")) 8 0 (by decide) (by decide) (by decide)
      (by decide) (by decide) (by decide) (by decide) (by decide)).1
  · exact (h.2.2.1 (str ("8")) 8 0 (by decide) (by decide) (by decide)
      (by decide) (by decide) (by decide) (by decide) (by decide)).2

/-! ### Calendar encoding (`createEventVCard` / `createEventVCalendar`) -/

/-- Decimal digits of a natural number (fuel-structured so it computes in
the kernel). -/
def natDigitsGo : Nat → Nat → Str
  | 0, _ => []
  | fuel + 1, n =>
    if n < 10 then [48 + n] else natDigitsGo fuel (n / 10) ++ [48 + n % 10]

def natDigits (n : Nat) : Str := natDigitsGo (n + 1) n

def padNat (w n : Nat) : Str :=
  List.replicate (w - (natDigits n).length) 48 ++ natDigits n

/-- `toISOString().replace(/[-:]/g, "").split(".")[0] + "Z"`: the compact
UTC form `YYYYMMDDTHHMMSSZ`. -/
def icalOfMs (ms : Int) : Str :=
  let z := ms / 86400000
  let tod := ms % 86400000
  let c := civilFromDays z
  padNat 4 c.1.toNat ++ padNat 2 c.2.1.toNat ++ padNat 2 c.2.2.toNat ++ [84] ++
    padNat 2 (tod / 3600000).toNat ++ padNat 2 (tod % 3600000 / 60000).toNat ++
    padNat 2 (tod % 60000 / 1000).toNat ++ [90]

example : icalOfMs 0 = str ("19700101T000000Z") := by decide

example : icalOfMs (20082 * 86400000 + 8 * 3600000) =
    str ("20241225T080000Z") := by decide

/-- `.replace(/\n/g, "\\n")`: escape newlines to the two-character literal
sequence. -/
def escNl (s : Str) : Str :=
  (s.map (fun c => if c = 10 then [92, 110] else [c])).flatten

example : escNl (str ("a\nb")) = str ("a\\nb") := by decide

/-- JavaScript `a || b` on an optional string (null and "" are falsy). -/
def jsOr (a : Option Str) (b : Str) : Str :=
  match a with
  | some s => if s = [] then b else s
  | none => b

def isTruthy (o : Option Str) : Bool :=
  match o with
  | some s => !s.isEmpty
  | none => false

/-- The event fields consumed by the two calendar encoders; the ISO start
and end strings are abstracted to the instants they denote. -/
structure EventDetails where
  title : Option Str
  summary : Option Str
  description : Option Str
  location : Option Str
  date : Option Str
  time : Option Str
  startISO : Option Int
  endISO : Option Int

/-- `createEventVCard` of `whatsapp-client.ts`: a fixed 18-line template;
only DESCRIPTION is newline-escaped, SUMMARY and LOCATION are embedded
raw. -/
def createEventVCard (off nowMs : Int) (ed : EventDetails) : Str :=
  let nowStr := icalOfMs nowMs
  let eventId := str ("event-") ++ natDigits nowMs.toNat ++ str ("@whatsapp-me.app")
  let se : Int × Int :=
    match ed.startISO with
    | some sMs =>
      (sMs, match ed.endISO with
        | some eMs => eMs
        | none => sMs + 3600000)
    | none => resolveEventInstants off nowMs ed.date ed.time
  str ("BEGIN:VCALENDAR\nVERSION:2.0\nPRODID:-//WhatsApp-Me//Event//EN\nCALSCALE:GREGORIAN\nMETHOD:PUBLISH\nBEGIN:VEVENT\nDTSTAMP:")
    ++ nowStr ++ str ("\nDTSTART:") ++ icalOfMs se.1
    ++ str ("\nDTEND:") ++ icalOfMs se.2
    ++ str ("\nSUMMARY:") ++ jsOr ed.title (str ("Event"))
    ++ str ("\nDESCRIPTION:") ++ escNl (jsOr ed.description (jsOr ed.summary (str ("Event"))))
    ++ str ("\nLOCATION:") ++ jsOr ed.location []
    ++ str ("\nUID:") ++ eventId
    ++ str ("\nSTATUS:CONFIRMED\nSEQUENCE:0\nTRANSP:TRANSPARENT\nEND:VEVENT\nEND:VCALENDAR")

/-- `createEventVCalendar` of the Baileys client: conditional lines, and
SUMMARY, DESCRIPTION and LOCATION are all newline-escaped. -/
def createEventVCalendar (nowMs : Int) (ed : EventDetails) : Str :=
  let dtstamp := icalOfMs nowMs
  let uid := str ("event-") ++ natDigits nowMs.toNat ++ str ("@whatsapp-bot")
  str ("BEGIN:VCALENDAR\nVERSION:2.0\nPRODID:-//WhatsApp Event Bot//EN\nBEGIN:VEVENT\nUID:")
    ++ uid ++ str ("\nDTSTAMP:") ++ dtstamp ++ [10]
    ++ (match ed.startISO with
        | some s => str ("DTSTART:") ++ icalOfMs s ++ [10]
        | none => [])
    ++ (match ed.endISO with
        | some e => str ("DTEND:") ++ icalOfMs e ++ [10]
        | none => [])
    ++ (if isTruthy ed.title then
          str ("SUMMARY:") ++ escNl (ed.title.getD []) ++ [10] else [])
    ++ (if isTruthy ed.description then
          str ("DESCRIPTION:") ++ escNl (ed.description.getD []) ++ [10] else [])
    ++ (if isTruthy ed.location then
          str ("LOCATION:") ++ escNl (ed.location.getD []) ++ [10] else [])
    ++ str ("END:VEVENT\nEND:VCALENDAR")

def countNl (s : Str) : Nat := (s.filter (fun c => c == 10)).length

theorem countNl_append (a b : Str) : countNl (a ++ b) = countNl a + countNl b := by
  simp [countNl, List.filter_append]

theorem countNl_escNl (s : Str) : countNl (escNl s) = 0 := by
  induction s with
  | nil => rfl
  | cons c cs ih =>
    show countNl ((if c = 10 then [92, 110] else [c]) ++ escNl cs) = 0
    rw [countNl_append, ih]
    by_cases h : c = 10
    · simp [h, countNl]
    · simp [h, countNl]

theorem countNl_natDigitsGo (fuel n : Nat) : countNl (natDigitsGo fuel n) = 0 := by
  induction fuel generalizing n with
  | zero => rfl
  | succ fuel ih =>
    show countNl (if n < 10 then [48 + n] else
      natDigitsGo fuel (n / 10) ++ [48 + n % 10]) = 0
    by_cases h : n < 10
    · simp only [h, if_true, ite_true]
      simp only [countNl, List.filter, List.length]
      have hb : (48 + n == 10) = false := by
        simp only [beq_eq_false_iff_ne, ne_eq]
        omega
      rw [hb]
      rfl
    · simp only [h, if_false, ite_false]
      rw [countNl_append, ih]
      simp only [countNl, List.filter, List.length]
      have hb : (48 + n % 10 == 10) = false := by
        simp only [beq_eq_false_iff_ne, ne_eq]
        omega
      rw [hb]
      rfl

theorem countNl_padNat (w n : Nat) : countNl (padNat w n) = 0 := by
  unfold padNat natDigits
  rw [countNl_append, countNl_natDigitsGo]
  simp [countNl, List.filter_eq_nil_iff]

theorem countNl_icalOfMs (ms : Int) : countNl (icalOfMs ms) = 0 := by
  unfold icalOfMs
  dsimp only
  simp only [countNl_append, countNl_padNat]
  rfl

theorem countNl_natDigits (n : Nat) : countNl (natDigits n) = 0 :=
  countNl_natDigitsGo _ _

set_option maxRecDepth 40000 in
/-- C8 counterexample: `createEventVCard` does not escape newlines in the
title: a title containing a real newline produces a 19-line record (18
newlines instead of 17), the raw line break appears in the output, and the
two-character escape does not. -/
theorem vcard_title_newline_not_escaped :
    countNl (createEventVCard 0 0
      ⟨some (str ("a\nb")), none, none, none, none, none, none, none⟩) = 18 ∧
    hasSub (createEventVCard 0 0
      ⟨some (str ("a\nb")), none, none, none, none, none, none, none⟩)
      (str ("a\nb")) = true ∧
    hasSub (createEventVCard 0 0
      ⟨some (str ("a\nb")), none, none, none, none, none, none, none⟩)
      (str ("a\\nb")) = false := by
  refine ⟨by decide, by decide, by decide⟩

/-- C8 (amended): in `createEventVCalendar` every newline inside the title,
description and location is escaped to the literal two-character sequence,
so the record's line count is fixed by which fields are present, for every
field value.  In `createEventVCard` only the description is escaped: the
record stays an 18-line template for every description, provided the
embedded title and location carry no newline themselves. -/
theorem encoder_newline_escaping (off nowMs : Int) (ed : EventDetails)
    (htitle : countNl (jsOr ed.title (str ("Event"))) = 0)
    (hloc : countNl (jsOr ed.location []) = 0) :
    countNl (createEventVCard off nowMs ed) = 17 ∧
    countNl (createEventVCalendar nowMs ed) =
      7 + (if ed.startISO.isSome then 1 else 0) +
        (if ed.endISO.isSome then 1 else 0) +
        (if isTruthy ed.title then 1 else 0) +
        (if isTruthy ed.description then 1 else 0) +
        (if isTruthy ed.location then 1 else 0) := by
  constructor
  · unfold createEventVCard
    dsimp only
    simp only [countNl_append, countNl_icalOfMs, countNl_escNl,
      countNl_natDigits, htitle, hloc]
    decide
  · unfold createEventVCalendar
    dsimp only
    have hstart : countNl (match ed.startISO with
        | some s => str ("DTSTART:") ++ icalOfMs s ++ [10]
        | none => ([] : Str)) = if ed.startISO.isSome then 1 else 0 := by
      rcases ed.startISO with _ | s0
      · rfl
      · simp only [countNl_append, countNl_icalOfMs, Option.isSome_some,
          if_true, ite_true]
        decide
    have hend : countNl (match ed.endISO with
        | some e => str ("DTEND:") ++ icalOfMs e ++ [10]
        | none => ([] : Str)) = if ed.endISO.isSome then 1 else 0 := by
      rcases ed.endISO with _ | e0
      · rfl
      · simp only [countNl_append, countNl_icalOfMs, Option.isSome_some,
          if_true, ite_true]
        decide
    have htl : countNl (if isTruthy ed.title = true then
        str ("SUMMARY:") ++ escNl (ed.title.getD []) ++ [10] else []) =
        if isTruthy ed.title then 1 else 0 := by
      by_cases h : isTruthy ed.title = true
      · simp only [h, if_true, ite_true, countNl_append, countNl_escNl]
        decide
      · simp only [h, if_false, ite_false]
        simp at h
        simp [h, countNl]
    have hdl : countNl (if isTruthy ed.description = true then
        str ("DESCRIPTION:") ++ escNl (ed.description.getD []) ++ [10] else []) =
        if isTruthy ed.description then 1 else 0 := by
      by_cases h : isTruthy ed.description = true
      · simp only [h, if_true, ite_true, countNl_append, countNl_escNl]
        decide
      · simp only [h, if_false, ite_false]
        simp at h
        simp [h, countNl]
    have hll : countNl (if isTruthy ed.location = true then
        str ("LOCATION:") ++ escNl (ed.location.getD []) ++ [10] else []) =
        if isTruthy ed.location then 1 else 0 := by
      by_cases h : isTruthy ed.location = true
      · simp only [h, if_true, ite_true, countNl_append, countNl_escNl]
        decide
      · simp only [h, if_false, ite_false]
        simp at h
        simp [h, countNl]
    simp only [countNl_append, countNl_icalOfMs, countNl_natDigits,
      hstart, hend, htl, hdl, hll]
    have c1 : countNl (str ("BEGIN:VCALENDAR\nVERSION:2.0\nPRODID:-//WhatsApp Event Bot//EN\nBEGIN:VEVENT\nUID:")) = 4 := by decide
    have c2 : countNl (str ("\nDTSTAMP:")) = 1 := by decide
    have c3 : countNl (str ("event-")) = 0 := by decide
    have c4 : countNl (str ("@whatsapp-bot")) = 0 := by decide
    have c5 : countNl (str ("END:VEVENT\nEND:VCALENDAR")) = 1 := by decide
    have c6 : countNl ([10] : Str) = 1 := by decide
    rw [c1, c2, c3, c4, c5, c6]
    omega

set_option maxRecDepth 40000 in
theorem encoder_newline_escaping_witness :
    countNl (createEventVCard 0 0
      ⟨some (str ("T")), none, some (str ("x\ny")), some (str ("L")),
        none, none, some 0, none⟩) = 17 ∧
    countNl (createEventVCalendar 0
      ⟨some (str ("T")), none, some (str ("x\ny")), some (str ("L")),
        none, none, some 0, none⟩) = 11 := by
  have h := encoder_newline_escaping 0 0
    ⟨some (str ("T")), none, some (str ("x\ny")), some (str ("L")),
      none, none, some 0, none⟩ (by decide) (by decide)
  refine ⟨h.1, ?_⟩
  have h2 := h.2
  norm_num at h2
  exact h2
